import Mathlib

/-!
Verification of the resumable batch-fetch pipeline of
`scripts/fetch_wikipedia.py` (wikidata-football-cleanup).

The script is embedded shallowly:

* Python strings are Lean `String` (file contents are `List Char` so that
  line splitting and stripping are plain structural recursions);
* the filesystem is an association list from paths to file records; the
  parse outcome of a JSON file is carried as data (`Option JVal`), since
  the program only ever observes `json.load` succeeding or raising;
* every external effect (the Wikipedia/Wikidata HTTP calls, clock,
  I/O faults) is an oracle packaged in an `Env` record, so one run of the
  driver is a pure function of the initial filesystem, the input rows,
  the configuration and the oracle.

All Python `except` blocks in the script catch `Exception`; accordingly
each fallible primitive is modelled as returning its fallback value
(`None`, `{}`, `[]`, `False`) on the oracle-chosen failure, and the
embedded functions are total.
-/

namespace FetchWiki

/-! ## Python-style character/string utilities -/

/-- Whitespace test used to model Python `str.strip()` / `str.split()`:
exactly CPython's Unicode whitespace characters (category Zs, Zl, Zp, or
bidirectional class WS, B, S — the 29 code points of its unicodetype
table), not Lean's 4-character `Char.isWhitespace`. -/
def isWS (c : Char) : Bool :=
  ['\t', '\n', '\x0b', '\x0c', '\r', '\x1c', '\x1d', '\x1e', '\x1f',
   ' ', '\u0085', '\u00a0', '\u1680', '\u2000', '\u2001', '\u2002',
   '\u2003', '\u2004', '\u2005', '\u2006', '\u2007', '\u2008', '\u2009',
   '\u200a', '\u2028', '\u2029', '\u202f', '\u205f', '\u3000'].contains c

/-- Python `str.lstrip()` on the character list. -/
def lstripChars (l : List Char) : List Char := l.dropWhile isWS

/-- Python `str.strip()` on the character list. -/
def stripChars (l : List Char) : List Char :=
  ((l.dropWhile isWS).reverse.dropWhile isWS).reverse

/-- Split a character list at every `'\n'` or `'\r'`.  Python's text-mode
reads use universal newlines: `"\r\n"` and `"\r"` are translated to
`"\n"` before per-line iteration.  Treating each of the two characters as
its own terminator differs from that translation only by inserting an
extra empty piece at every `"\r\n"` pair, and the cache read strips each
line and drops the empty ones, so after that step the two readings agree
on every file content.  An empty input yields one empty piece, likewise
discarded by the same step. -/
def splitLines : List Char → List (List Char)
  | [] => [[]]
  | c :: rest =>
    if c = '\n' ∨ c = '\r' then [] :: splitLines rest
    else
      match splitLines rest with
      | [] => [[c]]
      | l :: ls => (c :: l) :: ls

/-- Python `'\n'.join(...)` on character lists. -/
def joinLines : List (List Char) → List Char
  | [] => []
  | [l] => l
  | l :: rest => l ++ '\n' :: joinLines rest

/-- Python `set.add`: append if not already present (insertion-ordered set). -/
def setAdd (l : List String) (q : String) : List String :=
  if q ∈ l then l else l ++ [q]

/-- Collapse duplicates, keeping first occurrences (models building a set). -/
def dedupKeys (l : List String) : List String :=
  l.foldl setAdd []

/-- Boolean list-prefix test (models Python `str.startswith` at char level). -/
def isPrefixB : List Char → List Char → Bool
  | [], _ => true
  | _ :: _, [] => false
  | a :: as, b :: bs => a = b && isPrefixB as bs

/-- Boolean substring test, modelling Python's `in` operator on strings. -/
def isInfixB (needle : List Char) (hay : List Char) : Bool :=
  match hay with
  | [] => isPrefixB needle []
  | _ :: rest => isPrefixB needle hay || isInfixB needle rest

/-- Boolean list-suffix test (models shell-glob `*.json` name matching). -/
def suffixB (suffix : List Char) (l : List Char) : Bool :=
  isPrefixB suffix.reverse l.reverse

/-- Code-point comparison of strings, modelling Python `sorted` order. -/
def lexLe (a b : String) : Bool :=
  let rec go : List Char → List Char → Bool
    | [], _ => true
    | _ :: _, [] => false
    | x :: xs, y :: ys => if x = y then go xs ys else decide (x < y)
  go a.toList b.toList

/-- Insert into a sorted list (used to model Python `sorted`). -/
def insertSorted (x : String) : List String → List String
  | [] => [x]
  | y :: ys => if lexLe x y then x :: y :: ys else y :: insertSorted x ys

/-- Python `sorted` on a list of strings (an insertion sort; only the
sorted-permutation property matters to the program). -/
def sortStrings : List String → List String
  | [] => []
  | x :: xs => insertSorted x (sortStrings xs)

/-- Python `str.split()` with no argument: split on whitespace runs,
dropping empty tokens. -/
def pySplit (l : List Char) : List String :=
  let rec go : List Char → List Char → List String
    | acc, [] => if acc.isEmpty then [] else [String.mk acc.reverse]
    | acc, c :: rest =>
      if isWS c then
        if acc.isEmpty then go [] rest
        else String.mk acc.reverse :: go [] rest
      else go (c :: acc) rest
  go [] l

/-- Python `str.lower()`. -/
def lowerStr (s : String) : String :=
  String.mk (s.toList.map Char.toLower)

/-- Python `name.replace(" ", "_")`. -/
def replaceSpaceUnderscore (s : String) : String :=
  String.mk (s.toList.map fun c => if c = ' ' then '_' else c)

/-! ## Data model -/

-- Configuration constants (fetch_wikipedia.py lines 42-45).
def REQUEST_DELAY : Nat := 1
def MIN_ARTICLE_LENGTH : Nat := 100
def SEARCH_RESULT_LIMIT : Nat := 3
def CHECKPOINT_INTERVAL : Nat := 50

/-- A JSON value, as far as the script observes one. -/
inductive JVal where
  | s (v : String)
  | num (v : Nat)
  | null
  | arr (vs : List JVal)
  | obj (fields : List (String × JVal))

/-- Lookup in a JSON object's field list (Python `data[k]` / `k in data`). -/
def lookupF : List (String × JVal) → String → Option JVal
  | [], _ => none
  | (k', v) :: rest, k => if k = k' then some v else lookupF rest k

/-- Python `data[k]` on a parsed JSON value; `none` models both a missing
key and indexing a non-object. -/
def jLookup : JVal → String → Option JVal
  | .obj fields, k => lookupF fields k
  | _, _ => none

/-- One page record of a Wikipedia API response, after JSON decoding. -/
structure Page where
  page_id : String
  title : String
  url : String
  extract : String
  last_revision : Option String

/-- The article dict the script builds from a response page. -/
structure Article where
  page_id : String
  title : String
  url : String
  extract : String
  last_revision : Option String
  fetched_at : String

/-- The dict literal built for a page (fetch_wikipedia.py lines 97-104). -/
def mkArticle (now : String) (p : Page) : Article :=
  ⟨p.page_id, p.title, p.url, p.extract, p.last_revision, now⟩

/-- The result dict of `fetch_player_article` (lines 258-265). -/
structure FetchResult where
  player_name : String
  player_qid : String
  status : String
  article : Option Article
  attempted_titles : List String
  fetched_at : String

/-- One CSV row of the input (columns accessed by `main`). -/
structure Row where
  player_qid : String
  player_name : String
  era : Option String
  team_name : Option String
  team_qid : Option String
  start_date : Option String

/-- The `stats` counters of `main` (line 466). -/
structure RunStats where
  found : Nat
  not_found : Nat
  errors : Nat

/-- How a single `save_result_atomically` call can go: clean, failing before
the temp file is created, failing during the temp write, or failing at the
rename.  In every failing case the `except` block runs. -/
inductive PutFault where
  | noFault
  | failOpen
  | failDump
  | failRename

instance : DecidableEq PutFault := fun a b => by
  cases a <;> cases b <;> first
    | exact isTrue rfl
    | exact isFalse (fun h => PutFault.noConfusion h)

/-- The oracle for everything outside the process: network responses
(retries, timeouts and malformed payloads are folded into the returned
value, since the script catches every exception at each call site), the
clock, and injected I/O faults. -/
structure Env where
  /-- `datetime.utcnow().isoformat()`. -/
  now : String
  /-- `get_wikipedia_title_from_wikidata`: the enwiki sitelink title, if the
  call and extraction succeed (`None` on any error, line 226-228). -/
  wikidataTitle : String → Option String
  /-- Pages of the response to a single-title query (`fetch_article_by_title`);
  `[]` models an empty `pages` dict or any caught request/JSON error. -/
  fetchPages : String → List Page
  /-- Pages of the response to a batched query (`fetch_article_batch`);
  `[]` models any caught error. -/
  batchPages : List String → List Page
  /-- Titles of the response to `search_wikipedia query limit`;
  `[]` models any caught error. -/
  searchRaw : String → Nat → List String
  /-- Fault injection for `save_result_atomically`, per key. -/
  putFault : String → PutFault
  /-- Whether writing the progress cache with the given content succeeds. -/
  cacheWriteOk : List String → Bool
  /-- Whether writing the checkpoint file succeeds. -/
  checkpointOk : Bool

/-! ## Resolver (fetch_article_by_title, fetch_article_batch,
search_wikipedia, generate_title_variations, fetch_player_article) -/

/-- `fetch_article_by_title` (lines 71-123): take the first page of the
response; page id `-1` means the page does not exist. -/
def fetch_article_by_title (env : Env) (title : String) : Option Article :=
  match env.fetchPages title with
  | [] => none
  | p :: _ => if p.page_id = "-1" then none else some (mkArticle env.now p)

/-- `fetch_article_batch` (lines 126-168): at most 50 titles per call; keep
only existing pages whose extract is strictly longer than
`MIN_ARTICLE_LENGTH`, keyed by title. -/
def fetch_article_batch (env : Env) (titles : List String) :
    List (String × Article) :=
  if titles.isEmpty then []
  else
    (env.batchPages (titles.take 50)).filterMap fun p =>
      if p.page_id ≠ "-1" && decide (MIN_ARTICLE_LENGTH < p.extract.length)
      then some (p.title, mkArticle env.now p)
      else none

/-- Python `title in batch_results` / `batch_results[title]`. -/
def dictGet (d : List (String × Article)) (k : String) : Option Article :=
  match d with
  | [] => none
  | (k', v) :: rest => if k = k' then some v else dictGet rest k

/-- `search_wikipedia` (lines 171-195). -/
def search_wikipedia (env : Env) (query : String) (limit : Nat) : List String :=
  env.searchRaw query limit

/-- `generate_title_variations` (lines 231-246). -/
def generate_title_variations (name : String) : List String :=
  let variations := [name, name ++ " (footballer)"]
  let underscore_name := replaceSpaceUnderscore name
  if underscore_name ≠ name then variations ++ [underscore_name] else variations

/-- The `for title in title_variations: if title in batch_results` loop
(lines 284-288): first title present in the batch dict. -/
def firstHit : List String → List (String × Article) → Option Article
  | [], _ => none
  | t :: ts, d =>
    match dictGet d t with
    | some a => some a
    | none => firstHit ts d

/-- The identity-verification heuristic (lines 308-310): some token of the
lowercased display name, longer than two characters, occurs in the
lowercased extract. -/
def tokenMatch (player_name : String) (extract : String) : Bool :=
  let extract_lower := (lowerStr extract).toList
  let name_parts := pySplit (lowerStr player_name).toList
  name_parts.any fun part =>
    decide (2 < part.length) && isInfixB part.toList extract_lower

/-- The `for title in new_titles` loop of the search fallback
(lines 304-313): first fetched candidate passing `tokenMatch`. -/
def firstVerified (player_name : String) :
    List String → List (String × Article) → Option Article
  | [], _ => none
  | t :: ts, d =>
    match dictGet d t with
    | some a =>
      if tokenMatch player_name a.extract then some a
      else firstVerified player_name ts d
    | none => firstVerified player_name ts d

/-- Strategy 3, the search fallback (lines 292-315), acting on the result
accumulated so far. -/
def strategy3 (env : Env) (player_name : String) (result : FetchResult) :
    FetchResult :=
  let search_results :=
    search_wikipedia env (player_name ++ " footballer") SEARCH_RESULT_LIMIT
  if search_results.isEmpty then result
  else
    let new_titles :=
      search_results.filter fun t => !result.attempted_titles.contains t
    let result :=
      { result with attempted_titles := result.attempted_titles ++ new_titles }
    if new_titles.isEmpty then result
    else
      let batch_results := fetch_article_batch env new_titles
      match firstVerified player_name new_titles batch_results with
      | some a => { result with status := "found", article := some a }
      | none => result

/-- Strategies 2 and 3 (lines 277-315): name-variation batch lookup, then
the search fallback. -/
def strategies23 (env : Env) (player_name : String) (result : FetchResult) :
    FetchResult :=
  let title_variations := generate_title_variations player_name
  let result :=
    { result with
      attempted_titles := result.attempted_titles ++ title_variations }
  let batch_results := fetch_article_batch env title_variations
  match firstHit title_variations batch_results with
  | some a => { result with status := "found", article := some a }
  | none => strategy3 env player_name result

/-- `fetch_player_article` (lines 249-315).  Note the Python truthiness
test `if wikidata_title:` also skips an empty-string title, and that the
strategy-1 title is recorded with a `"[wikidata] "` marker. -/
def fetch_player_article (env : Env) (player_name player_qid : String) :
    FetchResult :=
  let result : FetchResult :=
    ⟨player_name, player_qid, "not_found", none, [], env.now⟩
  match env.wikidataTitle player_qid with
  | some wikidata_title =>
    if wikidata_title = "" then strategies23 env player_name result
    else
      let result :=
        { result with
          attempted_titles :=
            result.attempted_titles ++ ["[wikidata] " ++ wikidata_title] }
      match fetch_article_by_title env wikidata_title with
      | some article =>
        if MIN_ARTICLE_LENGTH < article.extract.length then
          { result with status := "found", article := some article }
        else strategies23 env player_name result
      | none => strategies23 env player_name result
  | none => strategies23 env player_name result

/-! ## Filesystem model

Paths are character lists relative to the output directory.  A file record
carries its size, the outcome `json.load` would have on it (`none` models a
decode error), and its raw text as read line-by-line.  For files the driver
itself writes, `parsed` and `raw` are filled from the value written; for
files already present in the store they are arbitrary. -/

abbrev FPath := List Char

/-- A stored file: size in bytes, `json.load` outcome, raw text. -/
structure FileC where
  size : Nat
  parsed : Option JVal
  raw : List Char

/-- The output directory: an association list path → file. -/
abbrev FS := List (FPath × FileC)

def fsGet : FS → FPath → Option FileC
  | [], _ => none
  | (q, c) :: rest, p => if p = q then some c else fsGet rest p

def fsErase : FS → FPath → FS
  | [], _ => []
  | (q, c) :: rest, p =>
    if q = p then fsErase rest p else (q, c) :: fsErase rest p

def fsSet (fs : FS) (p : FPath) (c : FileC) : FS := (p, c) :: fsErase fs p

/-- `Path.rename`: move the source file onto the destination. -/
def fsRename (fs : FS) (src dst : FPath) : FS :=
  match fsGet fs src with
  | some c => fsSet (fsErase fs src) dst c
  | none => fs

-- Path constructors (lines 320, 367, 378, 393-394).
def outputFile (player_qid : String) : FPath :=
  player_qid.toList ++ ".json".toList
def tempFile (player_qid : String) : FPath :=
  '.' :: player_qid.toList ++ ".json.tmp".toList
def PROGRESS_CACHE : FPath := ".progress_cache.txt".toList
def CHECKPOINT_FILE : FPath := ".checkpoint.json".toList

/-- `output_dir.glob("*.json")` name test: `pathlib` glob matches any entry
whose name ends in `.json` (including dot-files such as the checkpoint). -/
def jsonName (p : FPath) : Bool := suffixB ".json".toList p

mutual

/-- Abstract byte size of a serialized JSON value (`json.dump`); no claim
depends on the sizes of files the program itself writes. -/
def jSize : JVal → Nat
  | .s v => v.length + 2
  | .num _ => 1
  | .null => 4
  | .arr vs => 2 + jSizeList vs
  | .obj fields => 2 + jSizeFields fields

def jSizeList : List JVal → Nat
  | [] => 0
  | v :: rest => jSize v + jSizeList rest

def jSizeFields : List (String × JVal) → Nat
  | [] => 0
  | (k, v) :: rest => k.length + jSize v + jSizeFields rest

end

/-- File record for a JSON value the driver serializes (`json.dump`). -/
def artifactFile (j : JVal) : FileC := ⟨jSize j, some j, []⟩

/-- Leftover of an interrupted `json.dump` into the temp file: some
truncated, unparseable content.  It is unlinked before `put` returns. -/
def truncatedFile : FileC := ⟨0, none, []⟩

/-! ## Document Store: save_result_atomically (lines 391-408) -/

/-- `save_result_atomically`: write the encoded result to
`.{qid}.json.tmp`, then rename onto `{qid}.json`.  On any exception the
temp file, if present, is unlinked and `False` is returned. -/
def save_result_atomically (fs : FS) (fault : PutFault) (player_qid : String)
    (j : JVal) : FS × Bool :=
  let output_file := outputFile player_qid
  let temp_file := tempFile player_qid
  match fault with
  | .noFault =>
    let fs1 := fsSet fs temp_file (artifactFile j)
    (fsRename fs1 temp_file output_file, true)
  | .failOpen =>
    -- the exception is raised before the temp file is created
    let fs1 := if (fsGet fs temp_file).isSome then fsErase fs temp_file else fs
    (fs1, false)
  | .failDump =>
    -- the exception is raised mid-write: a truncated temp file exists
    let fs1 := fsSet fs temp_file truncatedFile
    let fs2 :=
      if (fsGet fs1 temp_file).isSome then fsErase fs1 temp_file else fs1
    (fs2, false)
  | .failRename =>
    -- the temp file is fully written, the rename raises
    let fs1 := fsSet fs temp_file (artifactFile j)
    let fs2 :=
      if (fsGet fs1 temp_file).isSome then fsErase fs1 temp_file else fs1
    (fs2, false)

/-! ## Progress Index: load_progress / save_progress_cache (lines 318-373) -/

/-- The content `save_progress_cache` writes:
`'\n'.join(sorted(fetched_qids))`. -/
def cacheRaw (qids : List String) : List Char :=
  joinLines ((sortStrings qids).map String.toList)

/-- The cache-reading step of `load_progress` (line 327):
`set(line.strip() for line in f if line.strip())`. -/
def readCache (raw : List Char) : List String :=
  dedupKeys
    ((((splitLines raw).map stripChars).filter fun l => !l.isEmpty).map
      fun l => String.mk l)

/-- `save_progress_cache` (lines 365-373): best-effort overwrite of the
cache file; a failure is caught and leaves the store unchanged. -/
def save_progress_cache (env : Env) (fs : FS) (fetched_qids : List String) :
    FS :=
  if env.cacheWriteOk fetched_qids then
    fsSet fs PROGRESS_CACHE
      ⟨(cacheRaw fetched_qids).length, none, cacheRaw fetched_qids⟩
  else fs

/-- The checkpoint document (lines 380-386). -/
def checkpointJ (env : Env) (stats : RunStats) (processed total : Nat) : JVal :=
  .obj
    [("stats",
      .obj
        [("found", .num stats.found), ("not_found", .num stats.not_found),
         ("errors", .num stats.errors)]),
     ("processed_count", .num processed), ("total_count", .num total),
     ("timestamp", .s env.now)]

/-- `save_checkpoint` (lines 376-388): best-effort plain overwrite. -/
def save_checkpoint (env : Env) (fs : FS) (stats : RunStats)
    (processed total : Nat) : FS :=
  if env.checkpointOk then
    fsSet fs CHECKPOINT_FILE (artifactFile (checkpointJ env stats processed total))
  else fs

/-- The slow path of `load_progress` (lines 339-357): scan every `*.json`
entry; skip files smaller than 10 bytes, undecodable files, and files
missing `player_qid` or `status`; collect the `player_qid` values.
(When the `player_qid` value is not a JSON string Python would add a
non-string value to the set; no string key ever equals such a value, so
the set of string keys is modelled unchanged.) -/
def slow_scan (fs : FS) : List String :=
  (fs.filter fun e => jsonName e.1).foldl
    (fun fetched e =>
      if e.2.size < 10 then fetched
      else
        match e.2.parsed with
        | none => fetched
        | some data =>
          if (jLookup data "player_qid").isSome && (jLookup data "status").isSome
          then
            match jLookup data "player_qid" with
            | some (.s q) => setAdd fetched q
            | _ => fetched
          else fetched)
    []

/-- The slow path plus the cache rewrite (lines 339-362). -/
def slow_path (env : Env) (fs : FS) : FS × List String :=
  let fetched := slow_scan fs
  (save_progress_cache env fs fetched, fetched)

/-- `load_progress` (lines 318-362): fast path from the cache file,
validated by checking that the first five cached keys still have artifact
files; otherwise the directory scan. -/
def load_progress (env : Env) (fs : FS) : FS × List String :=
  match fsGet fs PROGRESS_CACHE with
  | some f =>
    let cached_qids := readCache f.raw
    let sample_qids := cached_qids.take 5
    if sample_qids.all fun qid => (fsGet fs (outputFile qid)).isSome then
      (fs, cached_qids)
    else slow_path env fs
  | none => slow_path env fs

/-! ## Fetch Driver: main (lines 411-533) -/

def optStr : Option String → JVal
  | some s => .s s
  | none => .null

/-- The persisted result document: the `result` dict of
`fetch_player_article` plus the club fields attached in `main`
(lines 492-495), in the order `json.dump` sees them. -/
def encodeResult (r : FetchResult) (row : Row) : JVal :=
  .obj
    [("player_name", .s r.player_name), ("player_qid", .s r.player_qid),
     ("status", .s r.status),
     ("article",
      match r.article with
      | some a =>
        .obj
          [("page_id", .s a.page_id), ("title", .s a.title),
           ("url", .s a.url), ("extract", .s a.extract),
           ("last_revision", optStr a.last_revision),
           ("fetched_at", .s a.fetched_at)]
      | none => .null),
     ("attempted_titles", .arr (r.attempted_titles.map .s)),
     ("fetched_at", .s r.fetched_at), ("stale_club", optStr row.team_name),
     ("stale_club_qid", optStr row.team_qid),
     ("stale_start_date", optStr row.start_date), ("era", optStr row.era)]

/-- CLI configuration (lines 412-419), restricted to what affects the
core: `--limit` (0 = all), `--no-resume`, `--era`. -/
structure Config where
  limit : Nat
  noResume : Bool
  era : Option String

/-- The era filter (lines 441-443). -/
def filterRows (rows : List Row) (cfg : Config) : List Row :=
  match cfg.era with
  | some e => rows.filter fun r => r.era = some e
  | none => rows

/-- The dedup-and-resume filter (lines 446-452): keep the first row of each
qid not already fetched. -/
def uniqueLoop (fetched_qids : List String) :
    List Row → List Row × List String → List Row × List String
  | [], acc => acc
  | row :: rest, (unique, seen) =>
    if row.player_qid ∈ seen ∨ row.player_qid ∈ fetched_qids then
      uniqueLoop fetched_qids rest (unique, seen)
    else uniqueLoop fetched_qids rest (unique ++ [row], seen ++ [row.player_qid])

def uniquePlayers (rows : List Row) (fetched_qids : List String) : List Row :=
  (uniqueLoop fetched_qids rows ([], [])).1

/-- LOADING_PROGRESS (lines 426-433). -/
def loadPhase (env : Env) (fs : FS) (cfg : Config) : FS × List String :=
  if cfg.noResume then (fs, []) else load_progress env fs

/-- The items `main` iterates, i.e. exactly the work items handed to the
Resolver: era filter, dedup-and-resume filter, then the limit
(lines 436-463; the empty case returns before the limit is applied). -/
def plannedItems (env : Env) (fs : FS) (cfg : Config) (rows : List Row) :
    List Row :=
  let fetched_qids := (loadPhase env fs cfg).2
  let unique := uniquePlayers (filterRows rows cfg) fetched_qids
  if unique.isEmpty then []
  else if 0 < cfg.limit then unique.take cfg.limit else unique

/-- In-flight driver state: the store, the in-memory progress set, and the
run counters. -/
structure RunState where
  fs : FS
  fetched_qids : List String
  stats : RunStats

/-- The periodic checkpoint (lines 512-515): progress cache, then
checkpoint snapshot. -/
def checkpointSave (env : Env) (st : RunState) (processed total : Nat) :
    RunState :=
  { st with
    fs :=
      save_checkpoint env (save_progress_cache env st.fs st.fetched_qids)
        st.stats processed total }

/-- One iteration of the fetch loop (lines 469-518) for item index `i`:
resolve, persist atomically, update progress and stats (on persistence
failure only `errors` is bumped and the key is not added), then the
periodic checkpoint. -/
def process_item (env : Env) (total : Nat) (st : RunState) (i : Nat)
    (row : Row) : RunState :=
  let result := fetch_player_article env row.player_name row.player_qid
  let res :=
    save_result_atomically st.fs (env.putFault row.player_qid) row.player_qid
      (encodeResult result row)
  let st' :=
    if res.2 then
      { fs := res.1, fetched_qids := setAdd st.fetched_qids row.player_qid,
        stats :=
          if result.status = "found" then
            { st.stats with found := st.stats.found + 1 }
          else { st.stats with not_found := st.stats.not_found + 1 } }
    else
      { fs := res.1, fetched_qids := st.fetched_qids,
        stats := { st.stats with errors := st.stats.errors + 1 } }
  if (i + 1) % CHECKPOINT_INTERVAL = 0 then checkpointSave env st' (i + 1) total
  else st'

/-- The whole fetch loop over the planned items. -/
def processAll (env : Env) (total : Nat) (st : RunState) (items : List Row) :
    RunState :=
  (items.enum).foldl (fun st e => process_item env total st e.1 e.2) st

/-- One driver run (`main` after argument parsing): load progress, filter,
process every remaining item, final cache save and checkpoint
(lines 421-533).  When nothing remains the run returns before the final
saves (lines 456-458). -/
def run (env : Env) (fs : FS) (cfg : Config) (rows : List Row) : RunState :=
  let lp := loadPhase env fs cfg
  let unique := uniquePlayers (filterRows rows cfg) lp.2
  if unique.isEmpty then ⟨lp.1, lp.2, ⟨0, 0, 0⟩⟩
  else
    let items := if 0 < cfg.limit then unique.take cfg.limit else unique
    let st := processAll env items.length ⟨lp.1, lp.2, ⟨0, 0, 0⟩⟩ items
    let st := { st with fs := save_progress_cache env st.fs st.fetched_qids }
    { st with
      fs := save_checkpoint env st.fs st.stats items.length items.length }

/-- Configuration-phase failures: the only ones `main` does not catch. -/
inductive ConfigErr where
  | outputUnwritable
  | inputUnreadable

/-- Configuration-phase oracle: whether `output_dir.mkdir` succeeds and
what reading the input CSV yields. -/
structure Sys where
  mkdirOk : Bool
  inputRows : Except String (List Row)

/-- `main` including the configuration phase (lines 421-438): an unwritable
output root or unreadable input source aborts before any item is
processed; afterwards the run is the total function `run`. -/
def main_run (sys : Sys) (env : Env) (fs : FS) (cfg : Config) :
    Except ConfigErr RunState :=
  if sys.mkdirOk = false then .error .outputUnwritable
  else
    match sys.inputRows with
    | .error _ => .error .inputUnreadable
    | .ok rows => .ok (run env fs cfg rows)

/-! ## Specification-side definitions

These restate, in the spec's vocabulary, conditions the claims talk about;
the theorems below relate them to the embedded code. -/

/-- A valid persisted artifact for key `q`, in the spec's sense: at least
the minimum size, decodable, and containing the two required fields (with
the key a string, as keys are). -/
def validArtifact (fc : FileC) (q : String) : Prop :=
  10 ≤ fc.size ∧
    ∃ j, fc.parsed = some j ∧ jLookup j "player_qid" = some (.s q) ∧
      (jLookup j "status").isSome

/-- The key the slow-path scan extracts from one file, if any. -/
def scanKey (fc : FileC) : Option String :=
  if fc.size < 10 then none
  else
    match fc.parsed with
    | none => none
    | some data =>
      if (jLookup data "player_qid").isSome && (jLookup data "status").isSome
      then
        match jLookup data "player_qid" with
        | some (.s q) => some q
        | _ => none
      else none

/-- Key `q` has a valid persisted artifact in the store. -/
def hasValidArtifact (fs : FS) (q : String) : Prop :=
  ∃ e ∈ fs, jsonName e.1 = true ∧ validArtifact e.2 q

/-- A key fit for the newline-delimited progress-cache encoding: nonempty,
no newline characters (neither `'\n'` nor `'\r'`, both of which Python's
universal-newline reads treat as line terminators), no leading or trailing
whitespace (Python's Unicode whitespace, via `isWS`). -/
def cleanKey (s : String) : Prop :=
  s.toList ≠ [] ∧ '\n' ∉ s.toList ∧ '\r' ∉ s.toList ∧
    stripChars s.toList = s.toList

/-- The titles strategy 1 records: the authoritative title, marked, when
the cross-reference yields a (truthy) title. -/
def s1Titles (env : Env) (player_qid : String) : List String :=
  match env.wikidataTitle player_qid with
  | some wt => if wt = "" then [] else ["[wikidata] " ++ wt]
  | none => []

/-- The document strategy 1 accepts, if any: the authoritative title
resolves and its body is strictly longer than the threshold. -/
def s1Article (env : Env) (player_qid : String) : Option Article :=
  match env.wikidataTitle player_qid with
  | some wt =>
    if wt = "" then none
    else
      match fetch_article_by_title env wt with
      | some a =>
        if MIN_ARTICLE_LENGTH < a.extract.length then some a else none
      | none => none
  | none => none

/-- The document strategy 2 accepts, if any: first title variation present
in the batched lookup. -/
def s2Article (env : Env) (player_name : String) : Option Article :=
  firstHit (generate_title_variations player_name)
    (fetch_article_batch env (generate_title_variations player_name))

/-- The search query of the fallback. -/
def searchQuery (player_name : String) : String := player_name ++ " footballer"

/-- The candidate titles the search fallback records and examines: search
results not already attempted by strategies 1 and 2. -/
def searchNewTitles (env : Env) (player_name player_qid : String) :
    List String :=
  (search_wikipedia env (searchQuery player_name) SEARCH_RESULT_LIMIT).filter
    fun t =>
      !(s1Titles env player_qid ++ generate_title_variations player_name).contains
        t

/-- The attempted-titles sequence the spec predicts: the (marked)
authoritative title, then — unless strategy 1 succeeded — the name
variations, then — unless strategy 2 succeeded — the new search
candidates. -/
def attemptedSpec (env : Env) (player_name player_qid : String) :
    List String :=
  if (s1Article env player_qid).isSome then s1Titles env player_qid
  else if (s2Article env player_name).isSome then
    s1Titles env player_qid ++ generate_title_variations player_name
  else
    s1Titles env player_qid ++ generate_title_variations player_name ++
      searchNewTitles env player_name player_qid

/-! ## Filesystem lemmas -/

theorem fsGet_fsErase (fs : FS) (p r : FPath) :
    fsGet (fsErase fs p) r = if r = p then none else fsGet fs r := by
  induction fs with
  | nil => simp [fsErase, fsGet]
  | cons e rest ih =>
    obtain ⟨q, c⟩ := e
    by_cases hqp : q = p
    · by_cases hrq : r = q <;> simp [fsErase, fsGet, hqp, hrq, ih] <;> simp_all
    · by_cases hrq : r = q
      · subst hrq
        simp [fsErase, fsGet, hqp, ih]
      · simp [fsErase, fsGet, hqp, hrq, ih]

theorem fsGet_fsSet (fs : FS) (p : FPath) (c : FileC) (r : FPath) :
    fsGet (fsSet fs p c) r = if r = p then some c else fsGet fs r := by
  by_cases hrp : r = p <;> simp [fsSet, fsGet, hrp, fsGet_fsErase]

theorem fsErase_fsErase (fs : FS) (p : FPath) :
    fsErase (fsErase fs p) p = fsErase fs p := by
  induction fs with
  | nil => simp [fsErase]
  | cons e rest ih =>
    obtain ⟨q, c⟩ := e
    by_cases hqp : q = p <;> simp [fsErase, hqp, ih]

theorem fsErase_fsSet (fs : FS) (p : FPath) (c : FileC) :
    fsErase (fsSet fs p c) p = fsErase fs p := by
  simp [fsSet, fsErase, fsErase_fsErase]

theorem mem_fsErase {e : FPath × FileC} {fs : FS} {p : FPath}
    (h : e ∈ fsErase fs p) : e ∈ fs := by
  induction fs with
  | nil => simp [fsErase] at h
  | cons f rest ih =>
    obtain ⟨q, c⟩ := f
    by_cases hqp : q = p
    · simp only [fsErase, if_pos hqp] at h
      exact List.mem_cons_of_mem _ (ih h)
    · simp only [fsErase, if_neg hqp, List.mem_cons] at h
      rcases h with h | h
      · exact h ▸ List.mem_cons_self _ _
      · exact List.mem_cons_of_mem _ (ih h)

theorem mem_fsSet {e : FPath × FileC} {fs : FS} {p : FPath} {c : FileC}
    (h : e ∈ fsSet fs p c) : e = (p, c) ∨ e ∈ fs := by
  simp only [fsSet, List.mem_cons] at h
  rcases h with h | h
  · exact Or.inl h
  · exact Or.inr (mem_fsErase h)

/-! ## Path lemmas -/

theorem outputFile_ne_tempFile (q : String) : outputFile q ≠ tempFile q := by
  intro h
  have hl := congrArg List.length h
  simp [outputFile, tempFile] at hl

theorem progressCache_ne_outputFile (q : String) :
    PROGRESS_CACHE ≠ outputFile q := by
  intro h
  have hlast := congrArg List.getLast? h
  rw [outputFile, List.getLast?_append,
    show (".json".toList).getLast? = some 'n' from by decide,
    show List.getLast? PROGRESS_CACHE = some 't' from by decide,
    show (some 'n').or (q.toList.getLast?) = some 'n' from rfl] at hlast
  exact absurd hlast (by decide)

theorem progressCache_ne_tempFile (q : String) :
    PROGRESS_CACHE ≠ tempFile q := by
  intro h
  have hlast := congrArg List.getLast? h
  rw [tempFile,
    show ('.' :: q.toList ++ ".json.tmp".toList) =
      ('.' :: q.toList) ++ ".json.tmp".toList from rfl,
    List.getLast?_append,
    show (".json.tmp".toList).getLast? = some 'p' from by decide,
    show List.getLast? PROGRESS_CACHE = some 't' from by decide,
    show (some 'p').or (('.' :: q.toList).getLast?) = some 'p' from rfl]
    at hlast
  exact absurd hlast (by decide)

theorem isPrefixB_append_self (a b : List Char) : isPrefixB a (a ++ b) = true := by
  induction a with
  | nil => simp [isPrefixB]
  | cons c t ih => simp [isPrefixB, ih]

theorem jsonName_outputFile (q : String) : jsonName (outputFile q) = true := by
  simp only [jsonName, outputFile, suffixB, List.reverse_append]
  exact isPrefixB_append_self _ _

theorem jsonName_tempFile (q : String) : jsonName (tempFile q) = false := by
  simp only [jsonName, tempFile, suffixB]
  rw [show ('.' :: q.toList ++ ".json.tmp".toList) =
      ('.' :: q.toList) ++ ".json.tmp".toList from rfl,
    List.reverse_append,
    show ".json.tmp".toList.reverse =
      ['p', 'm', 't', '.', 'n', 'o', 's', 'j', '.'] from by decide,
    show ".json".toList.reverse = ['n', 'o', 's', 'j', '.'] from by decide]
  simp [isPrefixB]

theorem jsonName_progressCache : jsonName PROGRESS_CACHE = false := by
  decide

theorem jsonName_checkpoint : jsonName CHECKPOINT_FILE = true := by
  decide

theorem progressCache_ne_checkpoint : PROGRESS_CACHE ≠ CHECKPOINT_FILE := by
  decide

/-! ## Claim C1: atomic persistence -/

/-- Frame and success/failure behaviour of `save_result_atomically`,
case-split over the fault point. -/
theorem save_result_cases (fs : FS) (fault : PutFault) (q : String) (j : JVal) :
    ((save_result_atomically fs fault q j).2 = true ↔ fault = .noFault) ∧
    (fault = .noFault →
      fsGet (save_result_atomically fs fault q j).1 (outputFile q) =
        some (artifactFile j)) ∧
    (fault ≠ .noFault →
      fsGet (save_result_atomically fs fault q j).1 (outputFile q) =
        fsGet fs (outputFile q)) ∧
    fsGet (save_result_atomically fs fault q j).1 (tempFile q) = none ∧
    (∀ p, p ≠ outputFile q → p ≠ tempFile q →
      fsGet (save_result_atomically fs fault q j).1 p = fsGet fs p) := by
  have hne := outputFile_ne_tempFile q
  cases fault with
  | noFault =>
    refine ⟨by simp [save_result_atomically], fun _ => ?_, fun h => absurd rfl h,
      ?_, fun p hp1 hp2 => ?_⟩
    · simp [save_result_atomically, fsRename, fsGet_fsSet, fsErase_fsSet,
        fsGet_fsErase, hne]
    · simp [save_result_atomically, fsRename, fsGet_fsSet, fsErase_fsSet,
        fsGet_fsErase, hne, Ne.symm hne]
    · simp [save_result_atomically, fsRename, fsGet_fsSet, fsErase_fsSet,
        fsGet_fsErase, hne, hp1, hp2]
  | failOpen =>
    refine ⟨by simp [save_result_atomically], ?_, fun _ => ?_, ?_,
      fun p hp1 hp2 => ?_⟩
    case _ => intro h; exact absurd h (by decide)
    · by_cases hex : (fsGet fs (tempFile q)).isSome <;>
        simp [save_result_atomically, hex, fsGet_fsErase, hne, Ne.symm hne]
    · by_cases hex : (fsGet fs (tempFile q)).isSome
      · simp [save_result_atomically, hex, fsGet_fsErase]
      · simp only [save_result_atomically, hex, if_false]
        simpa using hex
    · by_cases hex : (fsGet fs (tempFile q)).isSome <;>
        simp [save_result_atomically, hex, fsGet_fsErase, hp2]
  | failDump =>
    refine ⟨by simp [save_result_atomically], ?_, fun _ => ?_, ?_,
      fun p hp1 hp2 => ?_⟩
    case _ => intro h; exact absurd h (by decide)
    · simp [save_result_atomically, fsGet_fsSet, fsErase_fsSet, fsGet_fsErase,
        hne, Ne.symm hne]
    · simp [save_result_atomically, fsGet_fsSet, fsErase_fsSet, fsGet_fsErase]
    · simp [save_result_atomically, fsGet_fsSet, fsErase_fsSet, fsGet_fsErase,
        hp2]
  | failRename =>
    refine ⟨by simp [save_result_atomically], ?_, fun _ => ?_, ?_,
      fun p hp1 hp2 => ?_⟩
    case _ => intro h; exact absurd h (by decide)
    · simp [save_result_atomically, fsGet_fsSet, fsErase_fsSet, fsGet_fsErase,
        hne, Ne.symm hne]
    · simp [save_result_atomically, fsGet_fsSet, fsErase_fsSet, fsGet_fsErase]
    · simp [save_result_atomically, fsGet_fsSet, fsErase_fsSet, fsGet_fsErase,
        hp2]

/-- C1.  `save_result_atomically` reports success exactly when the rename
completed; on success the final path holds the encoded result; on any
failure before the rename completes, the temp file is gone, the prior
artifact at the final path (or its absence) is unchanged, and every other
path is untouched. -/
theorem C1_put_atomic (fs : FS) (fault : PutFault) (q : String) (j : JVal) :
    ((save_result_atomically fs fault q j).2 = true ↔ fault = .noFault) ∧
    (fault = .noFault →
      fsGet (save_result_atomically fs fault q j).1 (outputFile q) =
        some (artifactFile j)) ∧
    (fault ≠ .noFault →
      (save_result_atomically fs fault q j).2 = false ∧
      fsGet (save_result_atomically fs fault q j).1 (outputFile q) =
        fsGet fs (outputFile q)) ∧
    fsGet (save_result_atomically fs fault q j).1 (tempFile q) = none ∧
    (∀ p, p ≠ outputFile q → p ≠ tempFile q →
      fsGet (save_result_atomically fs fault q j).1 p = fsGet fs p) := by
  obtain ⟨h1, h2, h3, h4, h5⟩ := save_result_cases fs fault q j
  refine ⟨h1, h2, fun hf => ⟨?_, h3 hf⟩, h4, h5⟩
  cases hok : (save_result_atomically fs fault q j).2
  · rfl
  · exact absurd (h1.mp hok) hf

/-- Witness for C1 at a concrete failing input: a store holding a prior
artifact for `"Q1"`, a fault at the rename step — the prior artifact
survives and `put` reports failure. -/
theorem C1_put_atomic_witness :
    (save_result_atomically [(outputFile "Q1", ⟨42, none, []⟩)] .failRename
        "Q1" .null).2 = false ∧
    fsGet
        (save_result_atomically [(outputFile "Q1", ⟨42, none, []⟩)] .failRename
          "Q1" .null).1 (outputFile "Q1") =
      fsGet [(outputFile "Q1", (⟨42, none, []⟩ : FileC))] (outputFile "Q1") := by
  have h :=
    (C1_put_atomic [(outputFile "Q1", ⟨42, none, []⟩)] .failRename "Q1"
      .null).2.2.1 (by intro h; cases h)
  exact h

/-! ## Strip and line lemmas -/

theorem dropWhile_head_not {p : Char → Bool} :
    ∀ {l : List Char} {c : Char} {t : List Char},
      l.dropWhile p = c :: t → p c = false := by
  intro l
  induction l with
  | nil => intro c t h; cases h
  | cons a rest ih =>
    intro c t h
    by_cases hp : p a
    · rw [List.dropWhile_cons_of_pos hp] at h
      exact ih h
    · rw [List.dropWhile_cons_of_neg hp] at h
      cases h
      simpa using hp

theorem dropWhile_eq_self_of_head {p : Char → Bool} {l : List Char}
    (h : ∀ c t, l = c :: t → p c = false) : l.dropWhile p = l := by
  cases l with
  | nil => rfl
  | cons c t => exact List.dropWhile_cons_of_neg (by simp [h c t rfl])

theorem dropWhile_dropWhile (p : Char → Bool) (l : List Char) :
    (l.dropWhile p).dropWhile p = l.dropWhile p :=
  dropWhile_eq_self_of_head fun _ _ h => dropWhile_head_not h

/-- Right-strip: drop trailing characters satisfying `p`. -/
def rdropW (p : Char → Bool) (l : List Char) : List Char :=
  (l.reverse.dropWhile p).reverse

theorem stripChars_eq (l : List Char) :
    stripChars l = rdropW isWS (l.dropWhile isWS) := rfl

theorem rdropW_rdropW (p : Char → Bool) (l : List Char) :
    rdropW p (rdropW p l) = rdropW p l := by
  unfold rdropW
  rw [List.reverse_reverse, dropWhile_dropWhile]

theorem head_not_of_dropWhile_eq {p : Char → Bool} {l : List Char}
    (h : l.dropWhile p = l) : ∀ c t, l = c :: t → p c = false := by
  intro c t hl
  subst hl
  by_cases hp : p c
  · rw [List.dropWhile_cons_of_pos hp] at h
    have := congrArg List.length h
    have hle := (List.dropWhile_sublist (l := t) p).length_le
    simp at this
    omega
  · simpa using hp

theorem dropWhile_rdropW {l : List Char} (h : l.dropWhile isWS = l) :
    (rdropW isWS l).dropWhile isWS = rdropW isWS l := by
  apply dropWhile_eq_self_of_head
  intro c t hrd
  have hsplit : l = rdropW isWS l ++ (l.reverse.takeWhile isWS).reverse := by
    conv_lhs => rw [← List.reverse_reverse l,
      ← List.takeWhile_append_dropWhile (p := isWS) (l := l.reverse)]
    rw [List.reverse_append]
    rfl
  have hl : l = c :: (t ++ (l.reverse.takeWhile isWS).reverse) := by
    conv_lhs => rw [hsplit]
    rw [hrd, List.cons_append]
  exact head_not_of_dropWhile_eq h c _ hl

theorem stripChars_idem (l : List Char) :
    stripChars (stripChars l) = stripChars l := by
  rw [stripChars_eq, stripChars_eq,
    dropWhile_rdropW (dropWhile_dropWhile isWS l), rdropW_rdropW]

theorem mem_dropWhile {p : Char → Bool} {c : Char} {l : List Char}
    (h : c ∈ l.dropWhile p) : c ∈ l :=
  (List.dropWhile_sublist (l := l) p).mem h

theorem mem_stripChars {c : Char} {l : List Char} (h : c ∈ stripChars l) :
    c ∈ l := by
  unfold stripChars at h
  rw [List.mem_reverse] at h
  have h2 := mem_dropWhile h
  rw [List.mem_reverse] at h2
  exact mem_dropWhile h2

theorem splitLines_ne_nil (s : List Char) : splitLines s ≠ [] := by
  induction s with
  | nil => simp [splitLines]
  | cons c rest ih =>
    by_cases h : c = '\n' ∨ c = '\r'
    · simp [splitLines, h]
    · simp only [splitLines, if_neg h]
      cases hs : splitLines rest with
      | nil => simp
      | cons l ls => simp

theorem splitLines_no_nl {s : List Char} (hn : '\n' ∉ s) (hcr : '\r' ∉ s) :
    splitLines s = [s] := by
  induction s with
  | nil => rfl
  | cons c rest ih =>
    have hc : ¬(c = '\n' ∨ c = '\r') := by
      rintro (h | h)
      · exact hn (h ▸ List.mem_cons_self c rest)
      · exact hcr (h ▸ List.mem_cons_self c rest)
    have hn2 : '\n' ∉ rest := fun hh => hn (List.mem_cons_of_mem c hh)
    have hr2 : '\r' ∉ rest := fun hh => hcr (List.mem_cons_of_mem c hh)
    simp only [splitLines, if_neg hc, ih hn2 hr2]

theorem splitLines_append {s : List Char} (t : List Char) (hn : '\n' ∉ s)
    (hcr : '\r' ∉ s) : splitLines (s ++ '\n' :: t) = s :: splitLines t := by
  induction s with
  | nil => simp [splitLines]
  | cons c rest ih =>
    have hc : ¬(c = '\n' ∨ c = '\r') := by
      rintro (h | h)
      · exact hn (h ▸ List.mem_cons_self c rest)
      · exact hcr (h ▸ List.mem_cons_self c rest)
    have hn2 : '\n' ∉ rest := fun hh => hn (List.mem_cons_of_mem c hh)
    have hr2 : '\r' ∉ rest := fun hh => hcr (List.mem_cons_of_mem c hh)
    have hrec := ih hn2 hr2
    simp only [List.cons_append, splitLines, if_neg hc]
    rw [show rest.append ('\n' :: t) = rest ++ '\n' :: t from rfl, hrec]

theorem mem_splitLines_no_nl :
    ∀ {s : List Char} {piece : List Char}, piece ∈ splitLines s →
      '\n' ∉ piece ∧ '\r' ∉ piece := by
  intro s
  induction s with
  | nil =>
    intro piece h
    simp [splitLines] at h
    simp [h]
  | cons c rest ih =>
    intro piece h
    by_cases hc : c = '\n' ∨ c = '\r'
    · simp only [splitLines, if_pos hc, List.mem_cons] at h
      rcases h with h | h
      · simp [h]
      · exact ih h
    · simp only [splitLines, if_neg hc] at h
      cases hs : splitLines rest with
      | nil => exact absurd hs (splitLines_ne_nil rest)
      | cons l ls =>
        rw [hs] at h
        rcases List.mem_cons.mp h with h1 | h1
        · subst h1
          push_neg at hc
          constructor
          · intro hmem
            rcases List.mem_cons.mp hmem with h2 | h2
            · exact hc.1 h2.symm
            · exact (ih (hs ▸ List.mem_cons_self l ls)).1 h2
          · intro hmem
            rcases List.mem_cons.mp hmem with h2 | h2
            · exact hc.2 h2.symm
            · exact (ih (hs ▸ List.mem_cons_self l ls)).2 h2
        · exact ih (hs ▸ List.mem_cons_of_mem l h1)

/-- The write-then-read identity at the level of line lists: for clean
lines, splitting the joined text, stripping and dropping empties is the
identity. -/
theorem roundTripLines :
    ∀ {L : List (List Char)},
      (∀ l ∈ L, l ≠ [] ∧ '\n' ∉ l ∧ '\r' ∉ l ∧ stripChars l = l) →
      ((splitLines (joinLines L)).map stripChars).filter
        (fun l => !l.isEmpty) = L := by
  intro L
  induction L with
  | nil => intro _; rfl
  | cons l rest ih =>
    intro hclean
    obtain ⟨hne, hnl, hnr, hstrip⟩ := hclean l (List.mem_cons_self l rest)
    have hkeep : (!l.isEmpty) = true := by
      cases l with
      | nil => exact absurd rfl hne
      | cons a t => rfl
    cases rest with
    | nil =>
      rw [show joinLines [l] = l from rfl, splitLines_no_nl hnl hnr,
        List.map_cons, List.map_nil, hstrip, List.filter_cons, if_pos hkeep]
      rfl
    | cons m rest2 =>
      rw [show joinLines (l :: m :: rest2) =
          l ++ '\n' :: joinLines (m :: rest2) from rfl,
        splitLines_append _ hnl hnr, List.map_cons, List.filter_cons, hstrip,
        if_pos hkeep, ih fun x hx => hclean x (List.mem_cons_of_mem l hx)]


/-! ## Set, dedup and sort membership -/

theorem mem_setAdd {l : List String} {q x : String} :
    x ∈ setAdd l q ↔ x ∈ l ∨ x = q := by
  unfold setAdd
  by_cases h : q ∈ l
  · simp only [if_pos h]
    constructor
    · exact Or.inl
    · rintro (hx | rfl)
      · exact hx
      · exact h
  · simp [if_neg h]

theorem mem_foldl_setAdd {x : String} :
    ∀ {l : List String} {acc : List String},
      x ∈ l.foldl setAdd acc ↔ x ∈ acc ∨ x ∈ l := by
  intro l
  induction l with
  | nil => intro acc; simp
  | cons a rest ih =>
    intro acc
    rw [List.foldl_cons, ih, mem_setAdd]
    simp only [List.mem_cons]
    tauto

theorem mem_dedupKeys {l : List String} {x : String} :
    x ∈ dedupKeys l ↔ x ∈ l := by
  unfold dedupKeys
  rw [mem_foldl_setAdd]
  simp

theorem mem_insertSorted {y x : String} :
    ∀ {l : List String}, x ∈ insertSorted y l ↔ x = y ∨ x ∈ l := by
  intro l
  induction l with
  | nil => simp [insertSorted]
  | cons a rest ih =>
    unfold insertSorted
    by_cases h : lexLe y a
    · simp [h]
    · simp only [if_neg h, List.mem_cons, ih]
      tauto

theorem mem_sortStrings {x : String} :
    ∀ {l : List String}, x ∈ sortStrings l ↔ x ∈ l := by
  intro l
  induction l with
  | nil => simp [sortStrings]
  | cons a rest ih =>
    unfold sortStrings
    rw [mem_insertSorted, ih, List.mem_cons]

theorem mk_toList (s : String) : String.mk s.toList = s := rfl

instance : DecidablePred cleanKey := fun s => by
  unfold cleanKey
  infer_instance

/-! ## Cache round trip -/

theorem readCache_cacheRaw {S : List String} (h : ∀ k ∈ S, cleanKey k)
    (x : String) : x ∈ readCache (cacheRaw S) ↔ x ∈ S := by
  unfold readCache cacheRaw
  have hclean : ∀ l ∈ (sortStrings S).map String.toList,
      l ≠ [] ∧ '\n' ∉ l ∧ '\r' ∉ l ∧ stripChars l = l := by
    intro l hl
    rcases List.mem_map.mp hl with ⟨k, hk, rfl⟩
    exact (h k (mem_sortStrings.mp hk))
  rw [roundTripLines hclean, mem_dedupKeys, List.map_map]
  have hid : (fun l => String.mk l) ∘ String.toList = id := funext mk_toList
  rw [hid, List.map_id, mem_sortStrings]

/-- Every key read back from a cache file is clean: a nonempty, stripped
line without newlines. -/
theorem readCache_clean {raw : List Char} {x : String}
    (h : x ∈ readCache raw) : cleanKey x := by
  unfold readCache at h
  rw [mem_dedupKeys] at h
  rcases List.mem_map.mp h with ⟨l, hl, rfl⟩
  rcases List.mem_filter.mp hl with ⟨hmem, hne⟩
  rcases List.mem_map.mp hmem with ⟨piece, hpiece, rfl⟩
  refine ⟨?_, ?_, ?_, ?_⟩
  · intro hnil
    rw [show (String.mk (stripChars piece)).toList = stripChars piece from rfl]
      at hnil
    rw [hnil] at hne
    simp at hne
  · intro hmem2
    rw [show (String.mk (stripChars piece)).toList = stripChars piece from rfl]
      at hmem2
    exact (mem_splitLines_no_nl hpiece).1 (mem_stripChars hmem2)
  · intro hmem2
    rw [show (String.mk (stripChars piece)).toList = stripChars piece from rfl]
      at hmem2
    exact (mem_splitLines_no_nl hpiece).2 (mem_stripChars hmem2)
  · rw [show (String.mk (stripChars piece)).toList = stripChars piece from rfl]
    exact stripChars_idem piece

/-- C10.  Writing the progress cache and reading it back yields exactly the
written set of keys, for every set of keys fit for the newline-delimited
encoding (nonempty, newline-free, no leading or trailing whitespace). -/
theorem C10_cache_roundtrip (S : List String) (h : ∀ k ∈ S, cleanKey k) :
    (readCache (cacheRaw S)).toFinset = S.toFinset := by
  apply Finset.ext
  intro x
  rw [List.mem_toFinset, List.mem_toFinset]
  exact readCache_cacheRaw h x

/-- Witness for C10 at a concrete two-key set. -/
theorem C10_cache_roundtrip_witness :
    (readCache (cacheRaw ["Q2", "Q1"])).toFinset =
      (["Q2", "Q1"] : List String).toFinset :=
  C10_cache_roundtrip ["Q2", "Q1"] (by decide)


/-! ## Slow-path scan characterization and claim C3 -/

/-- What the scan fold does to one directory entry, phrased through
`scanKey`. -/
def scanStep (fetched : List String) (e : FPath × FileC) : List String :=
  match scanKey e.2 with
  | some q => setAdd fetched q
  | none => fetched

theorem slow_scan_eq (fs : FS) :
    slow_scan fs = (fs.filter fun e => jsonName e.1).foldl scanStep [] := by
  unfold slow_scan
  apply List.foldl_ext
  intro fetched e _
  obtain ⟨p, fc⟩ := e
  unfold scanStep scanKey
  by_cases h1 : fc.size < 10
  · simp [h1]
  · simp only [if_neg h1]
    cases hp : fc.parsed with
    | none => rfl
    | some data =>
      by_cases h2 :
          ((jLookup data "player_qid").isSome && (jLookup data "status").isSome)
            = true
      · simp only [if_pos h2]
        cases hj : jLookup data "player_qid" with
        | none => rfl
        | some v => cases v <;> rfl
      · simp only [if_neg h2]

theorem mem_foldl_scanStep {x : String} :
    ∀ (l : List (FPath × FileC)) (acc : List String),
      x ∈ l.foldl scanStep acc ↔ x ∈ acc ∨ ∃ e ∈ l, scanKey e.2 = some x := by
  intro l
  induction l with
  | nil =>
    intro acc
    rw [List.foldl_nil]
    constructor
    · exact Or.inl
    · rintro (h | ⟨e, he, -⟩)
      · exact h
      · exact (List.not_mem_nil e he).elim
  | cons e rest ih =>
    intro acc
    rw [List.foldl_cons]
    cases hk : scanKey e.2 with
    | none =>
      rw [show scanStep acc e = acc from by unfold scanStep; rw [hk], ih]
      simp only [List.mem_cons]
      constructor
      · rintro (h | ⟨e', he', hs⟩)
        · exact Or.inl h
        · exact Or.inr ⟨e', Or.inr he', hs⟩
      · rintro (h | ⟨e', (rfl | he'), hs⟩)
        · exact Or.inl h
        · rw [hk] at hs; cases hs
        · exact Or.inr ⟨e', he', hs⟩
    | some q =>
      rw [show scanStep acc e = setAdd acc q from by unfold scanStep; rw [hk],
        ih]
      simp only [mem_setAdd, List.mem_cons]
      constructor
      · rintro ((h | rfl) | ⟨e', he', hs⟩)
        · exact Or.inl h
        · exact Or.inr ⟨e, Or.inl rfl, hk⟩
        · exact Or.inr ⟨e', Or.inr he', hs⟩
      · rintro (h | ⟨e', (rfl | he'), hs⟩)
        · exact Or.inl (Or.inl h)
        · rw [hk] at hs
          injection hs with hs
          exact Or.inl (Or.inr hs.symm)
        · exact Or.inr ⟨e', he', hs⟩

theorem mem_slow_scan {fs : FS} {x : String} :
    x ∈ slow_scan fs ↔ ∃ e ∈ fs, jsonName e.1 = true ∧ scanKey e.2 = some x := by
  rw [slow_scan_eq, mem_foldl_scanStep]
  simp only [List.not_mem_nil, false_or, List.mem_filter]
  constructor
  · rintro ⟨e, ⟨he, hj⟩, hs⟩
    exact ⟨e, he, hj, hs⟩
  · rintro ⟨e, he, hj, hs⟩
    exact ⟨e, ⟨he, hj⟩, hs⟩

theorem scanKey_eq_some_iff {fc : FileC} {q : String} :
    scanKey fc = some q ↔ validArtifact fc q := by
  unfold scanKey validArtifact
  by_cases h1 : fc.size < 10
  · simp only [if_pos h1]
    constructor
    · intro h; cases h
    · rintro ⟨h10, -⟩; omega
  · simp only [if_neg h1]
    have h10 : 10 ≤ fc.size := by omega
    cases hp : fc.parsed with
    | none =>
      constructor
      · intro h; cases h
      · rintro ⟨-, j, hj, -⟩; cases hj
    | some data =>
      by_cases h2 :
          ((jLookup data "player_qid").isSome && (jLookup data "status").isSome)
            = true
      · simp only [if_pos h2]
        rw [Bool.and_eq_true] at h2
        cases hj : jLookup data "player_qid" with
        | none => rw [hj] at h2; simp at h2
        | some v =>
          cases v with
          | s qv =>
            constructor
            · intro h
              injection h with h
              subst h
              exact ⟨h10, data, rfl, hj, h2.2⟩
            · rintro ⟨-, j, hjp, hpq, -⟩
              injection hjp with hjp
              subst hjp
              rw [hj] at hpq
              injection hpq with hpq
              injection hpq with hpq
              rw [hpq]
          | num v =>
            constructor
            · intro h; cases h
            · rintro ⟨-, j, hjp, hpq, -⟩
              injection hjp with hjp
              subst hjp
              rw [hj] at hpq
              injection hpq with hpq
              cases hpq
          | null =>
            constructor
            · intro h; cases h
            · rintro ⟨-, j, hjp, hpq, -⟩
              injection hjp with hjp
              subst hjp
              rw [hj] at hpq
              injection hpq with hpq
              cases hpq
          | arr vs =>
            constructor
            · intro h; cases h
            · rintro ⟨-, j, hjp, hpq, -⟩
              injection hjp with hjp
              subst hjp
              rw [hj] at hpq
              injection hpq with hpq
              cases hpq
          | obj fields =>
            constructor
            · intro h; cases h
            · rintro ⟨-, j, hjp, hpq, -⟩
              injection hjp with hjp
              subst hjp
              rw [hj] at hpq
              injection hpq with hpq
              cases hpq
      · simp only [if_neg h2]
        constructor
        · intro h; cases h
        · rintro ⟨-, j, hjp, hpq, hst⟩
          injection hjp with hjp
          subst hjp
          rw [Bool.and_eq_true] at h2
          exact absurd ⟨by rw [hpq]; rfl, hst⟩ h2

/-- C3.  The slow-path load returns exactly the keys of the valid
artifacts in the store (a valid artifact: a `*.json` entry of at least the
minimum size, decodable, with the two required fields), and touches no
path other than the progress-cache file it rewrites; in particular every
corrupted, truncated or field-missing file is left unchanged.  Undecodable
files are skipped as data (`parsed = none`), never raised. -/
theorem C3_slow_path_exact (env : Env) (fs : FS) :
    (∀ q, q ∈ (slow_path env fs).2 ↔ hasValidArtifact fs q) ∧
    (∀ p, p ≠ PROGRESS_CACHE → fsGet (slow_path env fs).1 p = fsGet fs p) := by
  constructor
  · intro q
    show q ∈ slow_scan fs ↔ _
    rw [mem_slow_scan]
    unfold hasValidArtifact
    simp only [scanKey_eq_some_iff]
  · intro p hp
    show fsGet (save_progress_cache env fs (slow_scan fs)) p = fsGet fs p
    unfold save_progress_cache
    by_cases h : env.cacheWriteOk (slow_scan fs) = true
    · rw [if_pos h, fsGet_fsSet, if_neg hp]
    · rw [if_neg h]

/-- A neutral oracle for witnesses: every network call comes back empty,
no I/O faults. -/
def envDefault : Env :=
  { now := "T", wikidataTitle := fun _ => none, fetchPages := fun _ => [],
    batchPages := fun _ => [], searchRaw := fun _ _ => [],
    putFault := fun _ => .noFault, cacheWriteOk := fun _ => true,
    checkpointOk := true }

/-- A store with one valid artifact for `"Q7"` and one corrupted file. -/
def fsC3 : FS :=
  [("Q7.json".toList,
    ⟨40, some (.obj [("player_qid", .s "Q7"), ("status", .s "found")]), []⟩),
   ("BAD.json".toList, ⟨40, none, []⟩)]

/-- Witness for C3: on `fsC3` the slow path returns `"Q7"` and leaves the
corrupted file unchanged. -/
theorem C3_slow_path_exact_witness :
    ("Q7" ∈ (slow_path envDefault fsC3).2 ↔ hasValidArtifact fsC3 "Q7") ∧
    fsGet (slow_path envDefault fsC3).1 "BAD.json".toList =
      fsGet fsC3 "BAD.json".toList := by
  have h := C3_slow_path_exact envDefault fsC3
  exact ⟨h.1 "Q7", h.2 "BAD.json".toList (by decide)⟩


/-! ## Resolver decomposition -/

/-- The search-fallback candidates relative to a given attempted list. -/
def s3New (env : Env) (player_name : String) (attempted : List String) :
    List String :=
  (search_wikipedia env (searchQuery player_name) SEARCH_RESULT_LIMIT).filter
    fun t => !attempted.contains t

theorem searchNewTitles_eq (env : Env) (n q : String) :
    searchNewTitles env n q =
      s3New env n (s1Titles env q ++ generate_title_variations n) := rfl

/-- `fetch_player_article`, decomposed by the outcome of strategy 1. -/
theorem fpa_eq (env : Env) (n q : String) :
    fetch_player_article env n q =
      match s1Article env q with
      | some a =>
        { player_name := n, player_qid := q, status := "found",
          article := some a, attempted_titles := s1Titles env q,
          fetched_at := env.now }
      | none =>
        strategies23 env n
          { player_name := n, player_qid := q, status := "not_found",
            article := none, attempted_titles := s1Titles env q,
            fetched_at := env.now } := by
  unfold fetch_player_article s1Article s1Titles
  cases hw : env.wikidataTitle q with
  | none => rfl
  | some wt =>
    by_cases hwe : wt = ""
    · simp only [if_pos hwe]
    · simp only [if_neg hwe]
      cases hf : fetch_article_by_title env wt with
      | none => rfl
      | some a =>
        by_cases hlen : MIN_ARTICLE_LENGTH < a.extract.length
        · simp only [if_pos hlen]
          rfl
        · simp only [if_neg hlen]
          rfl

theorem strategies23_eq_of_s2_none (env : Env) (n : String) (r : FetchResult)
    (hs2 : s2Article env n = none) :
    strategies23 env n r =
      strategy3 env n
        { r with
          attempted_titles :=
            r.attempted_titles ++ generate_title_variations n } := by
  unfold strategies23
  unfold s2Article at hs2
  dsimp only
  rw [hs2]

theorem strategy3_qid (env : Env) (n : String) (r : FetchResult) :
    (strategy3 env n r).player_qid = r.player_qid := by
  unfold strategy3
  dsimp only
  split
  · rfl
  · split
    · rfl
    · split <;> rfl

theorem strategies23_qid (env : Env) (n : String) (r : FetchResult) :
    (strategies23 env n r).player_qid = r.player_qid := by
  unfold strategies23
  dsimp only
  split
  · rfl
  · rw [strategy3_qid]

theorem fpa_qid (env : Env) (n q : String) :
    (fetch_player_article env n q).player_qid = q := by
  rw [fpa_eq]
  cases s1Article env q with
  | some a => rfl
  | none => rw [strategies23_qid]

theorem strategy3_inv (env : Env) (n : String) (r : FetchResult)
    (hs : r.status = "not_found") (ha : r.article = none) :
    ((strategy3 env n r).status = "found" ∧
      ((strategy3 env n r).article).isSome = true) ∨
    ((strategy3 env n r).status = "not_found" ∧
      (strategy3 env n r).article = none) := by
  unfold strategy3
  dsimp only
  split
  · exact Or.inr ⟨hs, ha⟩
  · split
    · exact Or.inr ⟨hs, ha⟩
    · split
      · exact Or.inl ⟨rfl, rfl⟩
      · exact Or.inr ⟨hs, ha⟩

theorem strategies23_inv (env : Env) (n : String) (r : FetchResult)
    (hs : r.status = "not_found") (ha : r.article = none) :
    ((strategies23 env n r).status = "found" ∧
      ((strategies23 env n r).article).isSome = true) ∨
    ((strategies23 env n r).status = "not_found" ∧
      (strategies23 env n r).article = none) := by
  unfold strategies23
  dsimp only
  split
  · exact Or.inl ⟨rfl, rfl⟩
  · exact strategy3_inv env n _ hs ha

/-- C9.  Every Resolver result is either `found` with a document or
`not_found` with none (with `attempted_titles` always carried in the
record). -/
theorem C9_status_document (env : Env) (n q : String) :
    ((fetch_player_article env n q).status = "found" ∧
      ((fetch_player_article env n q).article).isSome = true) ∨
    ((fetch_player_article env n q).status = "not_found" ∧
      (fetch_player_article env n q).article = none) := by
  rw [fpa_eq]
  cases s1Article env q with
  | some a => exact Or.inl ⟨rfl, rfl⟩
  | none => exact strategies23_inv env n _ rfl rfl


/-! ## Claim C6: attempted titles -/

theorem strategy3_attempted (env : Env) (n : String) (r : FetchResult) :
    (strategy3 env n r).attempted_titles =
      r.attempted_titles ++ s3New env n r.attempted_titles := by
  unfold strategy3 s3New searchQuery
  dsimp only
  split
  · rename_i h
    rw [List.isEmpty_iff] at h
    rw [h, List.filter_nil, List.append_nil]
  · split
    · rfl
    · split <;> rfl

theorem strategies23_attempted (env : Env) (n : String) (r : FetchResult) :
    (strategies23 env n r).attempted_titles =
      if (s2Article env n).isSome then
        r.attempted_titles ++ generate_title_variations n
      else
        r.attempted_titles ++ generate_title_variations n ++
          s3New env n (r.attempted_titles ++ generate_title_variations n) := by
  unfold strategies23
  dsimp only
  cases hfh : firstHit (generate_title_variations n)
      (fetch_article_batch env (generate_title_variations n)) with
  | some a =>
    rw [show s2Article env n = some a from hfh]
    rfl
  | none =>
    rw [show s2Article env n = none from hfh, strategy3_attempted]
    rfl

/-- C6 (amended).  The attempted-titles sequence is exactly the spec's
prediction: each strategy's titles in attempt order, recorded whether or
not the attempt succeeded, with the authoritative title carrying the
`"[wikidata] "` marker and already-attempted search candidates not
re-recorded. -/
theorem C6_attempted_titles (env : Env) (n q : String) :
    (fetch_player_article env n q).attempted_titles = attemptedSpec env n q := by
  rw [fpa_eq]
  unfold attemptedSpec
  cases hs1 : s1Article env q with
  | some a => rw [if_pos (by rfl)]
  | none =>
    rw [if_neg (by simp)]
    rw [strategies23_attempted]
    by_cases hs2 : (s2Article env n).isSome
    · rw [if_pos hs2, if_pos hs2]
    · rw [if_neg hs2, if_neg hs2, searchNewTitles_eq, List.append_assoc]

/-- The environment of the C6 counterexample: the authoritative lookup
resolves `"Q1"` to `"Alice Smith (footballer)"`, whose article is long
enough. -/
def env6 : Env :=
  { envDefault with
    wikidataTitle := fun _ => some "Alice Smith (footballer)",
    fetchPages := fun t =>
      if t = "Alice Smith (footballer)" then
        [⟨"123", "Alice Smith (footballer)", "u",
          String.mk (List.replicate 101 'a'), none⟩]
      else [] }

/-- C6 counterexample.  The authoritative lookup returns
`"Alice Smith (footballer)"` and succeeds, yet `attempted_titles` is not
`["Alice Smith (footballer)"]`: the title is recorded with a
`"[wikidata] "` marker, so the claimed verbatim recording fails. -/
theorem C6_counterexample :
    env6.wikidataTitle "Q1" = some "Alice Smith (footballer)" ∧
    (fetch_player_article env6 "Alice Smith" "Q1").status = "found" ∧
    (fetch_player_article env6 "Alice Smith" "Q1").attempted_titles ≠
      ["Alice Smith (footballer)"] ∧
    (fetch_player_article env6 "Alice Smith" "Q1").attempted_titles =
      ["[wikidata] Alice Smith (footballer)"] := by
  refine ⟨rfl, rfl, ?_, rfl⟩
  intro h
  rw [show (fetch_player_article env6 "Alice Smith" "Q1").attempted_titles =
    ["[wikidata] Alice Smith (footballer)"] from rfl] at h
  exact absurd h (by decide)


/-! ## Claim C5: the article-length threshold -/

theorem dictGet_nil (t : String) : dictGet [] t = none := rfl

theorem firstHit_nil : ∀ ts : List String, firstHit ts [] = none
  | [] => rfl
  | _ :: ts => by
    unfold firstHit
    rw [dictGet_nil]
    exact firstHit_nil ts

theorem fetch_article_batch_of_empty {env : Env}
    (hb : ∀ ts, env.batchPages ts = []) (titles : List String) :
    fetch_article_batch env titles = [] := by
  unfold fetch_article_batch
  split
  · rfl
  · rw [hb]
    rfl

/-- The page of the C5 counterexample: its body length is exactly the
minimum threshold. -/
def page100 : Page := ⟨"5", "T", "u", String.mk (List.replicate 100 'a'), none⟩

/-- The environment of the C5 counterexample: the authoritative lookup
resolves and returns `page100`; every other call comes back empty. -/
def env5 : Env :=
  { envDefault with
    wikidataTitle := fun _ => some "T",
    fetchPages := fun t => if t = "T" then [page100] else [] }

/-- C5 counterexample.  A document whose body length equals the threshold
(100) is returned by the lookup, yet the attempt does not succeed: the
code requires the length to be strictly greater than the threshold, so the
result is `not_found`. -/
theorem C5_counterexample :
    page100.extract.length = MIN_ARTICLE_LENGTH ∧
    env5.wikidataTitle "Q1" = some "T" ∧
    fetch_article_by_title env5 "T" = some (mkArticle env5.now page100) ∧
    (fetch_player_article env5 "Alice Smith" "Q1").status = "not_found" := by
  exact ⟨by decide, rfl, rfl, by decide⟩

/-- C5 (amended).  A lookup attempt succeeds exactly when the returned
body is strictly longer than the threshold: strictly longer bodies are
accepted with `status = found`, while a body at or below the threshold
(in particular of length exactly 100) is rejected, and if the remaining
strategies also come back empty the result is `not_found`. -/
theorem C5_threshold_strict (env : Env) (n q wt : String) (p : Page)
    (ps : List Page) (hw : env.wikidataTitle q = some wt) (hne : wt ≠ "")
    (hf : env.fetchPages wt = p :: ps) (hid : p.page_id ≠ "-1") :
    (MIN_ARTICLE_LENGTH < p.extract.length →
      (fetch_player_article env n q).status = "found" ∧
      (fetch_player_article env n q).article = some (mkArticle env.now p)) ∧
    (p.extract.length ≤ MIN_ARTICLE_LENGTH →
      (∀ ts, env.batchPages ts = []) → (∀ s k, env.searchRaw s k = []) →
      (fetch_player_article env n q).status = "not_found") := by
  have hfa : fetch_article_by_title env wt = some (mkArticle env.now p) := by
    unfold fetch_article_by_title
    rw [hf]
    simp only [if_neg hid]
  constructor
  · intro hlen
    unfold fetch_player_article
    rw [hw]
    simp only [if_neg hne]
    rw [hfa]
    simp only [if_pos (show MIN_ARTICLE_LENGTH <
      (mkArticle env.now p).extract.length from hlen)]
    constructor <;> first | rfl | trivial
  · intro hle hb hsr
    unfold fetch_player_article
    rw [hw]
    simp only [if_neg hne]
    rw [hfa]
    simp only [if_neg (show ¬MIN_ARTICLE_LENGTH <
      (mkArticle env.now p).extract.length from by
        show ¬MIN_ARTICLE_LENGTH < p.extract.length
        omega)]
    unfold strategies23
    dsimp only
    rw [fetch_article_batch_of_empty hb, firstHit_nil]
    unfold strategy3 search_wikipedia
    dsimp only
    rw [hsr]
    rfl

/-- The environment of the C5 witness: same shape, body length 101. -/
def env5b : Env :=
  { envDefault with
    wikidataTitle := fun _ => some "T",
    fetchPages := fun t =>
      if t = "T" then [⟨"5", "T", "u", String.mk (List.replicate 101 'a'), none⟩]
      else [] }

/-- Witness for C5 (amended): at body length 101 > 100 the attempt
succeeds. -/
theorem C5_threshold_strict_witness :
    (fetch_player_article env5b "Alice Smith" "Q1").status = "found" ∧
    (fetch_player_article env5b "Alice Smith" "Q1").article =
      some (mkArticle env5b.now
        ⟨"5", "T", "u", String.mk (List.replicate 101 'a'), none⟩) := by
  exact
    (C5_threshold_strict env5b "Alice Smith" "Q1" "T"
      ⟨"5", "T", "u", String.mk (List.replicate 101 'a'), none⟩ [] rfl
      (by decide) rfl (by decide)).1 (by decide)


/-! ## Claim C7: search fallback bound and verification heuristic -/

theorem firstVerified_some {n : String} :
    ∀ {ts : List String} {d : List (String × Article)} {a : Article},
      firstVerified n ts d = some a →
      tokenMatch n a.extract = true ∧ ∃ t ∈ ts, dictGet d t = some a := by
  intro ts
  induction ts with
  | nil => intro d a h; cases h
  | cons t rest ih =>
    intro d a h
    unfold firstVerified at h
    cases hd : dictGet d t with
    | none =>
      rw [hd] at h
      dsimp only at h
      obtain ⟨h1, t', ht', h2⟩ := ih h
      exact ⟨h1, t', List.mem_cons_of_mem t ht', h2⟩
    | some b =>
      rw [hd] at h
      dsimp only at h
      by_cases htm : tokenMatch n b.extract
      · rw [if_pos htm] at h
        injection h with h
        subst h
        exact ⟨htm, t, List.mem_cons_self t rest, hd⟩
      · rw [if_neg htm] at h
        obtain ⟨h1, t', ht', h2⟩ := ih h
        exact ⟨h1, t', List.mem_cons_of_mem t ht', h2⟩

theorem firstVerified_eq_none {n : String} :
    ∀ {ts : List String} {d : List (String × Article)},
      (∀ t ∈ ts, ∀ a, dictGet d t = some a → tokenMatch n a.extract = false) →
      firstVerified n ts d = none := by
  intro ts
  induction ts with
  | nil => intro d _; rfl
  | cons t rest ih =>
    intro d h
    unfold firstVerified
    cases hd : dictGet d t with
    | none =>
      exact ih fun t' ht' => h t' (List.mem_cons_of_mem t ht')
    | some b =>
      dsimp only
      rw [h t (List.mem_cons_self t rest) b hd]
      rw [if_neg (by simp)]
      exact ih fun t' ht' => h t' (List.mem_cons_of_mem t ht')

/-- `strategy3`, analysed: any accepted document comes from one of the new
candidate titles and passes the token heuristic; if no candidate passes,
the result keeps its incoming (`not_found`) status. -/
theorem strategy3_spec (env : Env) (n : String) (r : FetchResult)
    (hs : r.status = "not_found") (ha : r.article = none) :
    ((strategy3 env n r).status = "found" →
      ∃ a, (strategy3 env n r).article = some a ∧
        tokenMatch n a.extract = true ∧
        ∃ t ∈ s3New env n r.attempted_titles,
          dictGet (fetch_article_batch env (s3New env n r.attempted_titles)) t =
            some a) ∧
    ((∀ t ∈ s3New env n r.attempted_titles,
        ∀ a,
          dictGet (fetch_article_batch env (s3New env n r.attempted_titles)) t =
            some a →
          tokenMatch n a.extract = false) →
      (strategy3 env n r).status = "not_found") := by
  have hnf : ("not_found" : String) ≠ "found" := by decide
  unfold strategy3 s3New searchQuery search_wikipedia
  dsimp only
  by_cases hse :
      (env.searchRaw (n ++ " footballer") SEARCH_RESULT_LIMIT).isEmpty = true
  · rw [if_pos hse]
    rw [List.isEmpty_iff] at hse
    constructor
    · intro h
      rw [hs] at h
      exact absurd h hnf
    · intro _
      exact hs
  · rw [if_neg hse]
    by_cases hne :
        (List.filter (fun t => !r.attempted_titles.contains t)
          (env.searchRaw (n ++ " footballer") SEARCH_RESULT_LIMIT)).isEmpty = true
    · rw [if_pos hne]
      constructor
      · intro h
        rw [hs] at h
        exact absurd h hnf
      · intro _
        exact hs
    · rw [if_neg hne]
      cases hfv : firstVerified n
          (List.filter (fun t => !r.attempted_titles.contains t)
            (env.searchRaw (n ++ " footballer") SEARCH_RESULT_LIMIT))
          (fetch_article_batch env
            (List.filter (fun t => !r.attempted_titles.contains t)
              (env.searchRaw (n ++ " footballer") SEARCH_RESULT_LIMIT))) with
      | some a =>
        constructor
        · intro _
          obtain ⟨h1, t, ht, h2⟩ := firstVerified_some hfv
          exact ⟨a, rfl, h1, t, ht, h2⟩
        · intro hall
          rw [firstVerified_eq_none hall] at hfv
          cases hfv
      | none =>
        constructor
        · intro h
          rw [hs] at h
          exact absurd h hnf
        · intro _
          exact hs

/-- C7.  In the search fallback (reached when strategies 1 and 2 fail):
with the collaborator honouring the requested result limit, at most
`SEARCH_RESULT_LIMIT = 3` new candidate titles are examined; a candidate
is accepted only if some whitespace token of the lowercased display name,
longer than two characters, occurs in the lowercased body; and if no
candidate qualifies the Resolver returns `not_found`. -/
theorem C7_search_fallback (env : Env) (n q : String)
    (hs1 : s1Article env q = none) (hs2 : s2Article env n = none)
    (hlim : (env.searchRaw (searchQuery n) SEARCH_RESULT_LIMIT).length ≤
      SEARCH_RESULT_LIMIT) :
    (searchNewTitles env n q).length ≤ SEARCH_RESULT_LIMIT ∧
    ((fetch_player_article env n q).status = "found" →
      ∃ a, (fetch_player_article env n q).article = some a ∧
        (∃ t ∈ searchNewTitles env n q,
          dictGet (fetch_article_batch env (searchNewTitles env n q)) t =
            some a) ∧
        ∃ part ∈ pySplit (lowerStr n).toList, 2 < part.length ∧
          isInfixB part.toList (lowerStr a.extract).toList = true) ∧
    ((∀ t ∈ searchNewTitles env n q,
        ∀ a,
          dictGet (fetch_article_batch env (searchNewTitles env n q)) t =
            some a →
          tokenMatch n a.extract = false) →
      (fetch_player_article env n q).status = "not_found") := by
  have heq : fetch_player_article env n q =
      strategy3 env n
        { player_name := n, player_qid := q, status := "not_found",
          article := none,
          attempted_titles :=
            s1Titles env q ++ generate_title_variations n,
          fetched_at := env.now } := by
    rw [fpa_eq, hs1, strategies23_eq_of_s2_none env n _ hs2]
  have hspec := strategy3_spec env n
    { player_name := n, player_qid := q, status := "not_found",
      article := none,
      attempted_titles := s1Titles env q ++ generate_title_variations n,
      fetched_at := env.now } rfl rfl
  rw [searchNewTitles_eq]
  refine ⟨?_, ?_, ?_⟩
  · calc (s3New env n (s1Titles env q ++ generate_title_variations n)).length
        ≤ (search_wikipedia env (searchQuery n) SEARCH_RESULT_LIMIT).length :=
          List.length_filter_le _ _
      _ ≤ SEARCH_RESULT_LIMIT := hlim
  · intro hfound
    rw [heq] at hfound
    obtain ⟨a, h1, h2, t, ht, h3⟩ := hspec.1 hfound
    refine ⟨a, by rw [heq]; exact h1, ⟨t, ht, h3⟩, ?_⟩
    unfold tokenMatch at h2
    rw [List.any_eq_true] at h2
    obtain ⟨part, hpart, hcond⟩ := h2
    rw [Bool.and_eq_true, decide_eq_true_iff] at hcond
    exact ⟨part, hpart, hcond.1, hcond.2⟩
  · intro hall
    rw [heq]
    exact hspec.2 hall

/-- The environment of the C7 witness: no authoritative title, empty batch
lookups, one search result whose article body contains the name token
`"alice"`. -/
def env7 : Env :=
  { envDefault with
    searchRaw := fun _ _ => ["AS"],
    batchPages := fun ts =>
      if ts = ["AS"] then
        [⟨"9", "AS", "u",
          String.mk (("alice " ++ String.mk (List.replicate 96 'x')).toList),
          none⟩]
      else [] }

/-- Witness for C7: the search fallback accepts the matching candidate. -/
theorem C7_search_fallback_witness :
    (searchNewTitles env7 "Alice Smith" "Q1").length ≤ SEARCH_RESULT_LIMIT ∧
    ∃ a, (fetch_player_article env7 "Alice Smith" "Q1").article = some a ∧
      (∃ t ∈ searchNewTitles env7 "Alice Smith" "Q1",
        dictGet
          (fetch_article_batch env7 (searchNewTitles env7 "Alice Smith" "Q1"))
          t = some a) ∧
      ∃ part ∈ pySplit (lowerStr "Alice Smith").toList, 2 < part.length ∧
        isInfixB part.toList (lowerStr a.extract).toList = true := by
  have h := C7_search_fallback env7 "Alice Smith" "Q1" rfl rfl (by decide)
  exact ⟨h.1, h.2.1 (by decide)⟩


/-! ## Claim C8: fault containment -/

/-- C8.  With the per-item fault oracles (`putFault`, network responses)
arbitrary, the run is a total function: `main_run` returns statistics for
every input once the configuration phase passes, and an error outcome can
only arise from the configuration phase (unwritable output root or
unreadable input source), before any item is processed.  Every per-item
failure is data in `Env`, mirroring the script catching every exception at
the item boundary. -/
theorem C8_fault_containment (sys : Sys) (env : Env) (fs : FS) (cfg : Config) :
    (sys.mkdirOk = true → ∀ rows, sys.inputRows = .ok rows →
      main_run sys env fs cfg = .ok (run env fs cfg rows)) ∧
    (∀ e, main_run sys env fs cfg = .error e →
      sys.mkdirOk = false ∨ ∃ m, sys.inputRows = .error m) := by
  constructor
  · intro hmk rows hin
    unfold main_run
    rw [hmk, hin]
    simp
  · intro e herr
    unfold main_run at herr
    by_cases hmk : sys.mkdirOk = false
    · exact Or.inl hmk
    · rw [if_neg hmk] at herr
      cases hin : sys.inputRows with
      | error m => exact Or.inr ⟨m, rfl⟩
      | ok rows =>
        rw [hin] at herr
        cases herr

/-- Witness for C8 at a concrete configuration. -/
theorem C8_fault_containment_witness :
    main_run ⟨true, .ok []⟩ envDefault [] ⟨0, false, none⟩ =
      .ok (run envDefault [] ⟨0, false, none⟩ []) :=
  (C8_fault_containment ⟨true, .ok []⟩ envDefault [] ⟨0, false, none⟩).1 rfl []
    rfl

/-! ## Claim C2: resume filtering -/

theorem uniqueLoop_qid_not_fetched {fetched : List String} {q : String}
    (hq : q ∈ fetched) :
    ∀ (rows : List Row) (unique : List Row) (seen : List String),
      (∀ r ∈ unique, r.player_qid ≠ q) →
      ∀ r ∈ (uniqueLoop fetched rows (unique, seen)).1, r.player_qid ≠ q := by
  intro rows
  induction rows with
  | nil =>
    intro unique seen hinv r hr
    exact hinv r hr
  | cons row rest ih =>
    intro unique seen hinv
    unfold uniqueLoop
    by_cases hc : row.player_qid ∈ seen ∨ row.player_qid ∈ fetched
    · rw [if_pos hc]
      exact ih unique seen hinv
    · rw [if_neg hc]
      apply ih
      intro r hr
      rcases List.mem_append.mp hr with h1 | h1
      · exact hinv r h1
      · have : r = row := List.mem_singleton.mp h1
        subst this
        intro hqe
        exact hc (Or.inr (hqe ▸ hq))

/-- C2 (amended).  No key in the Progress Index as actually loaded by
`load_progress` (which, when the sampled fast-path cache validates, may be
a stale subset of the keys with valid artifacts on disk) is ever among the
items handed to the Resolver. -/
theorem C2_no_refetch_of_loaded (env : Env) (fs : FS) (cfg : Config)
    (rows : List Row) (hres : cfg.noResume = false) :
    ∀ q ∈ (loadPhase env fs cfg).2,
      ∀ r ∈ plannedItems env fs cfg rows, r.player_qid ≠ q := by
  intro q hq r hr
  unfold plannedItems at hr
  by_cases hemp :
      (uniquePlayers (filterRows rows cfg) (loadPhase env fs cfg).2).isEmpty
        = true
  · rw [if_pos hemp] at hr
    exact absurd hr (List.not_mem_nil r)
  · rw [if_neg hemp] at hr
    have hr2 :
        r ∈ uniquePlayers (filterRows rows cfg) (loadPhase env fs cfg).2 := by
      by_cases hlim : 0 < cfg.limit
      · rw [if_pos hlim] at hr
        exact List.mem_of_mem_take hr
      · rw [if_neg hlim] at hr
        exact hr
    exact uniqueLoop_qid_not_fetched hq (filterRows rows cfg) [] []
      (fun r hr => absurd hr (List.not_mem_nil r)) r hr2

/-- Witness for C2 (amended) at a concrete resumed run with two rows: the
cached key `"Q1"` is loaded, the planned item is the other row, and the
theorem yields that its key differs from `"Q1"`. -/
theorem C2_no_refetch_of_loaded_witness :
    (⟨"Q5", "Eve", none, none, none, none⟩ : Row).player_qid ≠ "Q1" := by
  refine C2_no_refetch_of_loaded envDefault
    [(PROGRESS_CACHE, ⟨2, none, "Q1".toList⟩),
     ("Q1.json".toList, ⟨40, none, []⟩)]
    ⟨0, false, none⟩
    [⟨"Q1", "Alice", none, none, none, none⟩,
     ⟨"Q5", "Eve", none, none, none, none⟩] rfl "Q1" (by decide)
    ⟨"Q5", "Eve", none, none, none, none⟩ ?_
  exact List.mem_singleton_self _

/-- The store of the C2 counterexample: the cache lists only `"Q1"` and
validates (its artifact exists), but a valid artifact for `"Q9"` is also
present — written, say, after the cache was last flushed. -/
def fsC2 : FS :=
  [(PROGRESS_CACHE, ⟨2, none, "Q1".toList⟩),
   ("Q1.json".toList,
    ⟨40, some (.obj [("player_qid", .s "Q1"), ("status", .s "found")]), []⟩),
   ("Q9.json".toList,
    ⟨40, some (.obj [("player_qid", .s "Q9"), ("status", .s "found")]), []⟩)]

/-- C2 counterexample.  `"Q9"` has a valid persisted artifact in the store
before the resumed run starts, yet it is among the items handed to the
Resolver: the fast-path cache passed its sample validation while missing
`"Q9"`, so the loaded Progress Index is a stale subset of the keys with
valid artifacts. -/
theorem C2_counterexample :
    hasValidArtifact fsC2 "Q9" ∧
    "Q9" ∈
      (plannedItems envDefault fsC2 ⟨0, false, none⟩
        [⟨"Q9", "Niner", none, none, none, none⟩]).map
        (fun r => r.player_qid) := by
  constructor
  · refine ⟨("Q9.json".toList,
      ⟨40, some (.obj [("player_qid", .s "Q9"), ("status", .s "found")]), []⟩),
      ?_, by decide, ?_⟩
    · exact List.mem_cons_of_mem _ (List.mem_cons_of_mem _
        (List.mem_cons_self _ _))
    · exact ⟨by decide, _, rfl, rfl, rfl⟩
  · decide


/-! ## Claim C4: persistence failure, retry on the next run -/

/-- The store never mentions `key`: no `*.json` entry would contribute it
(or any unencodable key) to a scan, and the cache file does not list it. -/
def StoreOk (key : String) (fs : FS) : Prop :=
  (∀ e ∈ fs, jsonName e.1 = true →
    ∀ x, scanKey e.2 = some x → cleanKey x ∧ x ≠ key) ∧
  (∀ f, fsGet fs PROGRESS_CACHE = some f → key ∉ readCache f.raw)

/-- The in-memory progress set never mentions `key`, and all its entries
survive the cache encoding. -/
def FetchedOk (key : String) (l : List String) : Prop :=
  ∀ x ∈ l, cleanKey x ∧ x ≠ key

theorem mem_fsErase_ne {e : FPath × FileC} {fs : FS} {p : FPath}
    (h : e ∈ fsErase fs p) : e ∈ fs ∧ e.1 ≠ p := by
  induction fs with
  | nil => simp [fsErase] at h
  | cons f rest ih =>
    obtain ⟨q, c⟩ := f
    by_cases hqp : q = p
    · simp only [fsErase, if_pos hqp] at h
      obtain ⟨h1, h2⟩ := ih h
      exact ⟨List.mem_cons_of_mem _ h1, h2⟩
    · simp only [fsErase, if_neg hqp, List.mem_cons] at h
      rcases h with h | h
      · subst h
        exact ⟨List.mem_cons_self _ _, hqp⟩
      · obtain ⟨h1, h2⟩ := ih h
        exact ⟨List.mem_cons_of_mem _ h1, h2⟩

theorem entries_save_ok {e : FPath × FileC} {fs : FS} {q : String} {j : JVal}
    (h : e ∈ (save_result_atomically fs .noFault q j).1) :
    e ∈ fs ∨ e = (outputFile q, artifactFile j) := by
  unfold save_result_atomically fsRename at h
  dsimp only at h
  rw [fsGet_fsSet] at h
  simp only [if_pos rfl] at h
  rcases mem_fsSet h with h1 | h1
  · exact Or.inr h1
  · obtain ⟨h2, -⟩ := mem_fsErase_ne h1
    rcases mem_fsSet h2 with h3 | h3
    · obtain ⟨-, h4⟩ := mem_fsErase_ne h1
      exact absurd (by rw [h3]) h4
    · exact Or.inl h3

theorem entries_save_fail {e : FPath × FileC} {fs : FS} {fault : PutFault}
    {q : String} {j : JVal} (hf : fault ≠ .noFault)
    (h : e ∈ (save_result_atomically fs fault q j).1) : e ∈ fs := by
  cases fault with
  | noFault => exact absurd rfl hf
  | failOpen =>
    unfold save_result_atomically at h
    dsimp only at h
    by_cases hex : (fsGet fs (tempFile q)).isSome
    · rw [if_pos hex] at h
      exact (mem_fsErase_ne h).1
    · rw [if_neg hex] at h
      exact h
  | failDump =>
    unfold save_result_atomically at h
    dsimp only at h
    rw [fsGet_fsSet] at h
    simp only [if_pos rfl, Option.isSome_some, if_true] at h
    obtain ⟨h1, h2⟩ := mem_fsErase_ne h
    rcases mem_fsSet h1 with h3 | h3
    · exact absurd (by rw [h3]) h2
    · exact h3
  | failRename =>
    unfold save_result_atomically at h
    dsimp only at h
    rw [fsGet_fsSet] at h
    simp only [if_pos rfl, Option.isSome_some, if_true] at h
    obtain ⟨h1, h2⟩ := mem_fsErase_ne h
    rcases mem_fsSet h1 with h3 | h3
    · exact absurd (by rw [h3]) h2
    · exact h3

theorem jLookup_encodeResult_qid (r : FetchResult) (row : Row) :
    jLookup (encodeResult r row) "player_qid" = some (.s r.player_qid) := by
  simp [encodeResult, jLookup, lookupF]

theorem jLookup_encodeResult_status (r : FetchResult) (row : Row) :
    jLookup (encodeResult r row) "status" = some (.s r.status) := by
  simp [encodeResult, jLookup, lookupF]

theorem scanKey_encodeResult {r : FetchResult} {row : Row} {x : String}
    (h : scanKey (artifactFile (encodeResult r row)) = some x) :
    x = r.player_qid := by
  unfold scanKey at h
  by_cases hsz : (artifactFile (encodeResult r row)).size < 10
  · rw [if_pos hsz] at h
    cases h
  · rw [if_neg hsz] at h
    have hp : (artifactFile (encodeResult r row)).parsed =
        some (encodeResult r row) := rfl
    rw [hp] at h
    dsimp only at h
    rw [jLookup_encodeResult_qid, jLookup_encodeResult_status] at h
    simp only [Option.isSome_some, Bool.and_self, if_true] at h
    injection h with h
    exact h.symm

theorem scanKey_checkpoint (env : Env) (stats : RunStats) (p t : Nat) :
    scanKey (artifactFile (checkpointJ env stats p t)) = none := by
  unfold scanKey
  by_cases hsz : (artifactFile (checkpointJ env stats p t)).size < 10
  · rw [if_pos hsz]
  · rw [if_neg hsz]
    have hp : (artifactFile (checkpointJ env stats p t)).parsed =
        some (checkpointJ env stats p t) := rfl
    rw [hp]
    have hq : jLookup (checkpointJ env stats p t) "player_qid" = none := by
      simp [checkpointJ, jLookup, lookupF]
    dsimp only
    rw [hq]
    rfl

theorem StoreOk_save {key : String} {fs : FS} {fault : PutFault} {q : String}
    {j : JVal} (h : StoreOk key fs)
    (hv : fault = .noFault →
      ∀ x, scanKey (artifactFile j) = some x → cleanKey x ∧ x ≠ key) :
    StoreOk key (save_result_atomically fs fault q j).1 := by
  constructor
  · intro e he hjn x hx
    by_cases hf : fault = PutFault.noFault
    · subst hf
      rcases entries_save_ok he with h1 | h1
      · exact h.1 e h1 hjn x hx
      · rw [h1] at hx
        exact hv rfl x hx
    · exact h.1 e (entries_save_fail hf he) hjn x hx
  · intro f hf
    have hframe := (save_result_cases fs fault q j).2.2.2.2 PROGRESS_CACHE
      (progressCache_ne_outputFile q) (progressCache_ne_tempFile q)
    rw [hframe] at hf
    exact h.2 f hf

theorem StoreOk_cache {key : String} {env : Env} {fs : FS} {S : List String}
    (h : StoreOk key fs) (hS : FetchedOk key S) :
    StoreOk key (save_progress_cache env fs S) := by
  unfold save_progress_cache
  by_cases hw : env.cacheWriteOk S = true
  · rw [if_pos hw]
    constructor
    · intro e he hjn x hx
      rcases mem_fsSet he with h1 | h1
      · rw [h1] at hjn
        rw [jsonName_progressCache] at hjn
        cases hjn
      · exact h.1 e h1 hjn x hx
    · intro f hf
      rw [fsGet_fsSet] at hf
      simp only [if_pos rfl] at hf
      injection hf with hf
      subst hf
      intro hkey
      have := readCache_cacheRaw (fun k hk => (hS k hk).1) key
      rw [this] at hkey
      exact (hS key hkey).2 rfl
  · rw [if_neg hw]
    exact h

theorem StoreOk_checkpoint {key : String} {env : Env} {fs : FS}
    {stats : RunStats} {p t : Nat} (h : StoreOk key fs) :
    StoreOk key (save_checkpoint env fs stats p t) := by
  unfold save_checkpoint
  by_cases hw : env.checkpointOk = true
  · rw [if_pos hw]
    constructor
    · intro e he hjn x hx
      rcases mem_fsSet he with h1 | h1
      · rw [h1] at hx
        rw [scanKey_checkpoint] at hx
        cases hx
      · exact h.1 e h1 hjn x hx
    · intro f hf
      rw [fsGet_fsSet] at hf
      rw [if_neg progressCache_ne_checkpoint] at hf
      exact h.2 f hf
  · rw [if_neg hw]
    exact h


theorem checkpointSave_stats (env : Env) (st : RunState) (p t : Nat) :
    (checkpointSave env st p t).stats = st.stats := rfl

theorem checkpointSave_fetched (env : Env) (st : RunState) (p t : Nat) :
    (checkpointSave env st p t).fetched_qids = st.fetched_qids := rfl

/-- On persistence failure, one iteration of the fetch loop bumps exactly
`errors`, leaves `found` and `not_found` alone, and does not add the key
to the in-memory progress set. -/
theorem process_item_fail_effects (env : Env) (total : Nat) (st : RunState)
    (i : Nat) (row : Row) (hf : env.putFault row.player_qid ≠ .noFault) :
    (process_item env total st i row).stats.errors = st.stats.errors + 1 ∧
    (process_item env total st i row).stats.found = st.stats.found ∧
    (process_item env total st i row).stats.not_found = st.stats.not_found ∧
    (process_item env total st i row).fetched_qids = st.fetched_qids := by
  have hok : (save_result_atomically st.fs (env.putFault row.player_qid)
      row.player_qid
      (encodeResult (fetch_player_article env row.player_name row.player_qid)
        row)).2 = false := by
    cases hres : (save_result_atomically st.fs (env.putFault row.player_qid)
        row.player_qid
        (encodeResult (fetch_player_article env row.player_name row.player_qid)
          row)).2
    · rfl
    · exact absurd ((save_result_cases st.fs (env.putFault row.player_qid)
        row.player_qid _).1.mp hres) hf
  unfold process_item
  dsimp only
  rw [hok]
  simp only [Bool.false_eq_true, if_false]
  by_cases hcp : (i + 1) % CHECKPOINT_INTERVAL = 0
  · rw [if_pos hcp]
    exact ⟨rfl, rfl, rfl, rfl⟩
  · rw [if_neg hcp]
    exact ⟨rfl, rfl, rfl, rfl⟩

/-- One loop iteration preserves the `StoreOk`/`FetchedOk` invariants when
the fault oracle fails every `put` for `key`. -/
theorem step_ok {key : String} (env : Env) (total : Nat) (st : RunState)
    (i : Nat) (row : Row) (h1 : StoreOk key st.fs)
    (h2 : FetchedOk key st.fetched_qids)
    (hfault : env.putFault key ≠ .noFault) (hclean : cleanKey row.player_qid) :
    StoreOk key (process_item env total st i row).fs ∧
    FetchedOk key (process_item env total st i row).fetched_qids := by
  have hv : env.putFault row.player_qid = .noFault →
      ∀ x, scanKey (artifactFile (encodeResult
        (fetch_player_article env row.player_name row.player_qid) row)) =
          some x → cleanKey x ∧ x ≠ key := by
    intro hnf x hx
    have hxq := scanKey_encodeResult hx
    rw [fpa_qid] at hxq
    subst hxq
    exact ⟨hclean, fun heq => hfault (heq ▸ hnf)⟩
  have hsave : StoreOk key (save_result_atomically st.fs
      (env.putFault row.player_qid) row.player_qid
      (encodeResult (fetch_player_article env row.player_name row.player_qid)
        row)).1 := by
    refine StoreOk_save h1 ?_
    exact hv
  have hfet : FetchedOk key
      (if (save_result_atomically st.fs (env.putFault row.player_qid)
          row.player_qid
          (encodeResult
            (fetch_player_article env row.player_name row.player_qid) row)).2
        then setAdd st.fetched_qids row.player_qid
        else st.fetched_qids) := by
    by_cases hok : (save_result_atomically st.fs (env.putFault row.player_qid)
        row.player_qid
        (encodeResult (fetch_player_article env row.player_name row.player_qid)
          row)).2 = true
    · rw [if_pos hok]
      have hnf : env.putFault row.player_qid = .noFault :=
        (save_result_cases st.fs (env.putFault row.player_qid)
          row.player_qid _).1.mp hok
      intro x hx
      rcases mem_setAdd.mp hx with h | h
      · exact h2 x h
      · subst h
        exact ⟨hclean, fun heq => hfault (heq ▸ hnf)⟩
    · rw [if_neg hok]
      exact h2
  unfold process_item
  dsimp only
  by_cases hcp : (i + 1) % CHECKPOINT_INTERVAL = 0
  · rw [if_pos hcp]
    rw [checkpointSave_fetched]
    constructor
    · show StoreOk key (save_checkpoint env (save_progress_cache env _ _) _ _ _)
      apply StoreOk_checkpoint
      apply StoreOk_cache
      · by_cases hok : (save_result_atomically st.fs
            (env.putFault row.player_qid) row.player_qid
            (encodeResult
              (fetch_player_article env row.player_name row.player_qid)
              row)).2 = true
        · rw [if_pos hok]
          exact hsave
        · rw [if_neg hok]
          exact hsave
      · by_cases hok : (save_result_atomically st.fs
            (env.putFault row.player_qid) row.player_qid
            (encodeResult
              (fetch_player_article env row.player_name row.player_qid)
              row)).2 = true
        · rw [if_pos hok]
          rw [if_pos hok] at hfet
          exact hfet
        · rw [if_neg hok]
          rw [if_neg hok] at hfet
          exact hfet
    · by_cases hok : (save_result_atomically st.fs
          (env.putFault row.player_qid) row.player_qid
          (encodeResult
            (fetch_player_article env row.player_name row.player_qid)
            row)).2 = true
      · rw [if_pos hok]
        rw [if_pos hok] at hfet
        exact hfet
      · rw [if_neg hok]
        rw [if_neg hok] at hfet
        exact hfet
  · rw [if_neg hcp]
    by_cases hok : (save_result_atomically st.fs (env.putFault row.player_qid)
        row.player_qid
        (encodeResult (fetch_player_article env row.player_name row.player_qid)
          row)).2 = true
    · rw [if_pos hok]
      rw [if_pos hok] at hfet
      exact ⟨hsave, hfet⟩
    · rw [if_neg hok]
      rw [if_neg hok] at hfet
      exact ⟨hsave, hfet⟩


theorem foldl_process_ok {key : String} (env : Env) (total : Nat)
    (hfault : env.putFault key ≠ .noFault) :
    ∀ (pairs : List (Nat × Row)) (st : RunState),
      StoreOk key st.fs → FetchedOk key st.fetched_qids →
      (∀ p ∈ pairs, cleanKey p.2.player_qid) →
      StoreOk key
        ((pairs.foldl (fun st e => process_item env total st e.1 e.2) st).fs) ∧
      FetchedOk key
        ((pairs.foldl (fun st e => process_item env total st e.1 e.2)
          st).fetched_qids) := by
  intro pairs
  induction pairs with
  | nil =>
    intro st hs hf _
    exact ⟨hs, hf⟩
  | cons p rest ih =>
    intro st hs hf hclean
    rw [List.foldl_cons]
    have hstep := step_ok env total st p.1 p.2 hs hf hfault
      (hclean p (List.mem_cons_self p rest))
    exact ih (process_item env total st p.1 p.2) hstep.1 hstep.2
      fun p2 hp2 => hclean p2 (List.mem_cons_of_mem p hp2)

theorem mem_enumFrom_snd {α : Type} :
    ∀ {l : List α} {n : Nat} {p : Nat × α}, p ∈ l.enumFrom n → p.2 ∈ l := by
  intro l
  induction l with
  | nil => intro n p h; simp [List.enumFrom] at h
  | cons a rest ih =>
    intro n p h
    rw [List.enumFrom] at h
    rcases List.mem_cons.mp h with h1 | h1
    · rw [h1]
      exact List.mem_cons_self a rest
    · exact List.mem_cons_of_mem a (ih h1)

theorem slow_ok {key : String} (env : Env) (fs : FS) (h : StoreOk key fs) :
    StoreOk key (slow_path env fs).1 ∧ FetchedOk key (slow_path env fs).2 := by
  have hfet : FetchedOk key (slow_scan fs) := by
    intro x hx
    rcases mem_slow_scan.mp hx with ⟨e, he, hjn, hsk⟩
    exact h.1 e he hjn x hsk
  exact ⟨StoreOk_cache h hfet, hfet⟩

theorem load_ok {key : String} (env : Env) (fs : FS) (h : StoreOk key fs) :
    StoreOk key (load_progress env fs).1 ∧
    FetchedOk key (load_progress env fs).2 := by
  unfold load_progress
  cases hc : fsGet fs PROGRESS_CACHE with
  | none => exact slow_ok env fs h
  | some f =>
    dsimp only
    by_cases hval : ((readCache f.raw).take 5).all
        (fun qid => (fsGet fs (outputFile qid)).isSome) = true
    · rw [if_pos hval]
      refine ⟨h, fun x hx => ⟨readCache_clean hx, fun heq => ?_⟩⟩
      exact h.2 f hc (heq ▸ hx)
    · rw [if_neg hval]
      exact slow_ok env fs h

theorem uniqueLoop_subset {fetched : List String} :
    ∀ (rows : List Row) (unique : List Row) (seen : List String),
      ∀ r ∈ (uniqueLoop fetched rows (unique, seen)).1,
        r ∈ unique ∨ r ∈ rows := by
  intro rows
  induction rows with
  | nil =>
    intro unique seen r hr
    exact Or.inl hr
  | cons row rest ih =>
    intro unique seen r hr
    unfold uniqueLoop at hr
    by_cases hc : row.player_qid ∈ seen ∨ row.player_qid ∈ fetched
    · rw [if_pos hc] at hr
      rcases ih unique seen r hr with h1 | h1
      · exact Or.inl h1
      · exact Or.inr (List.mem_cons_of_mem row h1)
    · rw [if_neg hc] at hr
      rcases ih (unique ++ [row]) (seen ++ [row.player_qid]) r hr with h1 | h1
      · rcases List.mem_append.mp h1 with h2 | h2
        · exact Or.inl h2
        · exact Or.inr (List.mem_singleton.mp h2 ▸
            List.mem_cons_self row rest)
      · exact Or.inr (List.mem_cons_of_mem row h1)

theorem filterRows_subset {rows : List Row} {cfg : Config} {r : Row}
    (h : r ∈ filterRows rows cfg) : r ∈ rows := by
  unfold filterRows at h
  cases he : cfg.era with
  | none =>
    rw [he] at h
    exact h
  | some e =>
    rw [he] at h
    exact (List.mem_filter.mp h).1

/-- A whole run preserves the invariant: if the store never mentioned
`key` and every `put` for `key` fails, the final store and in-memory set
still never mention it. -/
theorem run_ok {key : String} (env : Env) (fs : FS) (cfg : Config)
    (rows : List Row) (h : StoreOk key fs)
    (hfault : env.putFault key ≠ .noFault)
    (hrows : ∀ r ∈ rows, cleanKey r.player_qid) :
    StoreOk key (run env fs cfg rows).fs ∧
    FetchedOk key (run env fs cfg rows).fetched_qids := by
  have hlp : StoreOk key (loadPhase env fs cfg).1 ∧
      FetchedOk key (loadPhase env fs cfg).2 := by
    unfold loadPhase
    by_cases hnr : cfg.noResume = true
    · rw [if_pos hnr]
      exact ⟨h, fun x hx => absurd hx (List.not_mem_nil x)⟩
    · rw [if_neg hnr]
      exact load_ok env fs h
  unfold run
  dsimp only
  by_cases hemp :
      (uniquePlayers (filterRows rows cfg) (loadPhase env fs cfg).2).isEmpty
        = true
  · rw [if_pos hemp]
    exact hlp
  · rw [if_neg hemp]
    have hitems : ∀ p ∈ (if 0 < cfg.limit then
        (uniquePlayers (filterRows rows cfg)
          (loadPhase env fs cfg).2).take cfg.limit
        else uniquePlayers (filterRows rows cfg)
          (loadPhase env fs cfg).2).enum,
        cleanKey p.2.player_qid := by
      intro p hp
      have hsnd := mem_enumFrom_snd hp
      have hmem : p.2 ∈ uniquePlayers (filterRows rows cfg)
          (loadPhase env fs cfg).2 := by
        by_cases hlim : 0 < cfg.limit
        · rw [if_pos hlim] at hsnd
          exact List.mem_of_mem_take hsnd
        · rw [if_neg hlim] at hsnd
          exact hsnd
      rcases uniqueLoop_subset (filterRows rows cfg) [] [] p.2 hmem with h1 | h1
      · exact absurd h1 (List.not_mem_nil p.2)
      · exact hrows p.2 (filterRows_subset h1)
    have hfold := foldl_process_ok env
      (if 0 < cfg.limit then
        (uniquePlayers (filterRows rows cfg)
          (loadPhase env fs cfg).2).take cfg.limit
      else uniquePlayers (filterRows rows cfg) (loadPhase env fs cfg).2).length
      hfault
      (if 0 < cfg.limit then
        (uniquePlayers (filterRows rows cfg)
          (loadPhase env fs cfg).2).take cfg.limit
      else uniquePlayers (filterRows rows cfg) (loadPhase env fs cfg).2).enum
      ⟨(loadPhase env fs cfg).1, (loadPhase env fs cfg).2, ⟨0, 0, 0⟩⟩ hlp.1
      hlp.2 hitems
    exact ⟨StoreOk_checkpoint (StoreOk_cache hfold.1 hfold.2), hfold.2⟩

theorem uniqueLoop_covers {fetched : List String} {q : String}
    (hq : q ∉ fetched) :
    ∀ (rows : List Row) (unique : List Row) (seen : List String),
      ((∃ r ∈ unique, r.player_qid = q) ∨
        (q ∉ seen ∧ ∃ r ∈ rows, r.player_qid = q)) →
      ∃ r ∈ (uniqueLoop fetched rows (unique, seen)).1, r.player_qid = q := by
  intro rows
  induction rows with
  | nil =>
    intro unique seen hd
    rcases hd with hl | ⟨-, r, hr, -⟩
    · exact hl
    · exact absurd hr (List.not_mem_nil r)
  | cons row rest ih =>
    intro unique seen hd
    unfold uniqueLoop
    by_cases hc : row.player_qid ∈ seen ∨ row.player_qid ∈ fetched
    · rw [if_pos hc]
      apply ih
      rcases hd with hl | ⟨hns, r, hr, hrq⟩
      · exact Or.inl hl
      · rcases List.mem_cons.mp hr with heq | hr2
        · subst heq
          rw [hrq] at hc
          rcases hc with hcs | hcf
          · exact absurd hcs hns
          · exact absurd hcf hq
        · exact Or.inr ⟨hns, r, hr2, hrq⟩
    · rw [if_neg hc]
      apply ih
      rcases hd with hl | ⟨hns, r, hr, hrq⟩
      · obtain ⟨r, hr, hrq⟩ := hl
        exact Or.inl ⟨r, List.mem_append_left _ hr, hrq⟩
      · rcases List.mem_cons.mp hr with heq | hr2
        · subst heq
          exact Or.inl ⟨r, List.mem_append_right _
            (List.mem_singleton_self r), hrq⟩
        · by_cases hrow : row.player_qid = q
          · exact Or.inl ⟨row, List.mem_append_right _
              (List.mem_singleton_self row), hrow⟩
          · refine Or.inr ⟨?_, r, hr2, hrq⟩
            intro hmem
            rcases List.mem_append.mp hmem with hm | hm
            · exact hns hm
            · exact hrow (List.mem_singleton.mp hm).symm

/-- A key absent from the loaded Progress Index, present in the input, is
planned for the Resolver (no era filter, no limit). -/
theorem plannedItems_retry {env : Env} {fs : FS} {rows : List Row}
    {key : String} {row : Row}
    (hfetch : ∀ x ∈ (loadPhase env fs ⟨0, false, none⟩).2, x ≠ key)
    (hrow : row ∈ rows) (hqid : row.player_qid = key) :
    key ∈ (plannedItems env fs ⟨0, false, none⟩ rows).map
      (fun r => r.player_qid) := by
  have hnot : key ∉ (loadPhase env fs ⟨0, false, none⟩).2 := fun h =>
    hfetch key h rfl
  unfold plannedItems
  have hfr : filterRows rows ⟨0, false, none⟩ = rows := rfl
  rw [hfr]
  have hcov := uniqueLoop_covers hnot rows [] []
    (Or.inr ⟨List.not_mem_nil key, row, hrow, hqid⟩)
  obtain ⟨r, hr, hrq⟩ := hcov
  have hne : ¬(uniquePlayers rows
      (loadPhase env fs ⟨0, false, none⟩).2).isEmpty = true := by
    intro he
    rw [List.isEmpty_iff] at he
    unfold uniquePlayers at he
    rw [he] at hr
    exact absurd hr (List.not_mem_nil r)
  rw [if_neg hne]
  rw [if_neg (show ¬(0 : Nat) < (0 : Nat) from Nat.lt_irrefl 0)]
  exact List.mem_map.mpr ⟨r, hr, hrq⟩


/-- C4.  When persisting a result for a key fails: (i) the driver bumps
`errors` by exactly one, leaves `found` and `not_found` unchanged, and does
not add the key to the in-memory progress set; (ii) across the whole run —
provided the store never mentioned the key and every `put` for it fails —
the key is absent from the in-memory set and from the persisted cache at
the end, and a subsequent resumed run over input containing the key hands
it to the Resolver again. -/
theorem C4_persistence_failure :
    (∀ (env : Env) (total : Nat) (st : RunState) (i : Nat) (row : Row),
      env.putFault row.player_qid ≠ .noFault →
      (process_item env total st i row).stats.errors = st.stats.errors + 1 ∧
      (process_item env total st i row).stats.found = st.stats.found ∧
      (process_item env total st i row).stats.not_found =
        st.stats.not_found ∧
      (process_item env total st i row).fetched_qids = st.fetched_qids) ∧
    (∀ (env1 env2 : Env) (fs0 : FS) (cfg1 : Config) (rows1 rows2 : List Row)
        (key : String) (row2 : Row),
      StoreOk key fs0 → env1.putFault key ≠ .noFault →
      (∀ r ∈ rows1, cleanKey r.player_qid) →
      row2 ∈ rows2 → row2.player_qid = key →
      key ∉ (run env1 fs0 cfg1 rows1).fetched_qids ∧
      (∀ f, fsGet (run env1 fs0 cfg1 rows1).fs PROGRESS_CACHE = some f →
        key ∉ readCache f.raw) ∧
      key ∈
        (plannedItems env2 (run env1 fs0 cfg1 rows1).fs ⟨0, false, none⟩
          rows2).map (fun r => r.player_qid)) := by
  constructor
  · exact process_item_fail_effects
  · intro env1 env2 fs0 cfg1 rows1 rows2 key row2 hstore hfault hclean hmem
      hqid
    have hrun := run_ok env1 fs0 cfg1 rows1 hstore hfault hclean
    refine ⟨?_, ?_, ?_⟩
    · intro hk
      exact (hrun.2 key hk).2 rfl
    · intro f hf
      exact hrun.1.2 f hf
    · apply plannedItems_retry ?_ hmem hqid
      intro x hx
      have hload := load_ok env2 (run env1 fs0 cfg1 rows1).fs hrun.1
      have hx2 : x ∈ (load_progress env2 (run env1 fs0 cfg1 rows1).fs).2 := hx
      exact (hload.2 x hx2).2

/-- The C4 witness row and fault oracle: `put` fails for `"Q2"` only. -/
def rowQ2 : Row := ⟨"Q2", "Bob Jones", none, none, none, none⟩

def env4a : Env :=
  { envDefault with
    putFault := fun q => if q = "Q2" then .failRename else .noFault }

/-- Witness for C4 at a concrete run: one row, its `put` fails. -/
theorem C4_persistence_failure_witness :
    ((process_item env4a 1 ⟨[], [], ⟨0, 0, 0⟩⟩ 0 rowQ2).stats.errors =
        (⟨[], [], ⟨0, 0, 0⟩⟩ : RunState).stats.errors + 1 ∧
      (process_item env4a 1 ⟨[], [], ⟨0, 0, 0⟩⟩ 0 rowQ2).stats.found =
        (⟨[], [], ⟨0, 0, 0⟩⟩ : RunState).stats.found ∧
      (process_item env4a 1 ⟨[], [], ⟨0, 0, 0⟩⟩ 0 rowQ2).stats.not_found =
        (⟨[], [], ⟨0, 0, 0⟩⟩ : RunState).stats.not_found ∧
      (process_item env4a 1 ⟨[], [], ⟨0, 0, 0⟩⟩ 0 rowQ2).fetched_qids =
        (⟨[], [], ⟨0, 0, 0⟩⟩ : RunState).fetched_qids) ∧
    ("Q2" ∉ (run env4a [] ⟨0, false, none⟩ [rowQ2]).fetched_qids ∧
      (∀ f, fsGet (run env4a [] ⟨0, false, none⟩ [rowQ2]).fs PROGRESS_CACHE =
        some f → "Q2" ∉ readCache f.raw) ∧
      "Q2" ∈
        (plannedItems envDefault (run env4a [] ⟨0, false, none⟩ [rowQ2]).fs
          ⟨0, false, none⟩ [rowQ2]).map (fun r => r.player_qid)) := by
  constructor
  · exact C4_persistence_failure.1 env4a 1 ⟨[], [], ⟨0, 0, 0⟩⟩ 0 rowQ2
      (by decide)
  · refine C4_persistence_failure.2 env4a envDefault [] ⟨0, false, none⟩
      [rowQ2] [rowQ2] "Q2" rowQ2 ⟨?_, ?_⟩ (by decide) ?_
      (List.mem_singleton_self rowQ2) rfl
    · intro e he
      exact absurd he (List.not_mem_nil e)
    · intro f hf
      cases hf
    · intro r hr
      have : r = rowQ2 := List.mem_singleton.mp hr
      subst this
      decide

end FetchWiki
